import Mathlib

/-!
Verification development for the car-racing simulation core.

The Python source (simulation/track.py, simulation/checkpoint.py,
simulation/car.py, training/fitness_evaluator.py) is embedded shallowly:

* numpy float64 arithmetic is modelled by exact rationals;
* the float library routines math.cos, math.sin, math.sqrt are modelled by
  abstract function parameters (rcos, rsin, rsqrt), since every property
  proved here is independent of their numeric values;
* Python int() conversion (truncation toward zero) is modelled by ratTrunc;
* the struct-of-arrays CarBatch is modelled by a list of per-agent records,
  with the shared per-tick substep count computed over the whole list
  exactly as in CarBatch.update;
* external library calls (zlib compress and decompress, zlib.crc32) are
  abstract function parameters of the PNG codec.
-/

namespace CarRacing

/-- Truncation toward zero of a rational, the behaviour of Python int()
and of numpy astype(np.int32) on floats. -/
def ratTrunc (x : ℚ) : ℤ := if x < 0 then -⌊-x⌋ else ⌊x⌋

theorem ratTrunc_nonneg_eq_floor {x : ℚ} (h : 0 ≤ x) : ratTrunc x = ⌊x⌋ := by
  unfold ratTrunc
  rw [if_neg (not_lt.mpr h)]

theorem ratTrunc_mono {a b : ℚ} (h : a ≤ b) : ratTrunc a ≤ ratTrunc b := by
  unfold ratTrunc
  by_cases ha : a < 0 <;> by_cases hb : b < 0 <;>
    simp only [ha, hb, if_true, if_false]
  · exact neg_le_neg (Int.floor_mono (by linarith))
  · have h1 : (0 : ℤ) ≤ ⌊-a⌋ := Int.floor_nonneg.mpr (by linarith)
    have h2 : (0 : ℤ) ≤ ⌊b⌋ := Int.floor_nonneg.mpr (by linarith [not_lt.mp hb])
    omega
  · exact absurd (lt_of_le_of_lt h hb) ha
  · exact Int.floor_mono h

/-- Checkpoint gate: a line segment with an ordinal index
(simulation/checkpoint.py, class Checkpoint). -/
structure Checkpoint where
  x1 : ℚ
  y1 : ℚ
  x2 : ℚ
  y2 : ℚ
  index : ℕ
deriving DecidableEq

/-- 2D cross product of vectors a and b (checkpoint.py, _cross). -/
def cross2d (ax ay bx byv : ℚ) : ℚ := ax * byv - ay * bx

/-- The parallelism epsilon 1e-10 used by the segment intersection test. -/
def SEG_EPS : ℚ := 1 / 10 ^ 10

/-- Segment intersection test (checkpoint.py, _segments_intersect):
segment A is the gate, segment B the motion; parallel within SEG_EPS
never intersects, otherwise the parametric solution must have both
parameters in the unit interval. -/
def segments_intersect (ax1 ay1 ax2 ay2 bx1 by1 bx2 by2 : ℚ) : Bool :=
  let dxa := ax2 - ax1
  let dya := ay2 - ay1
  let dxb := bx2 - bx1
  let dyb := by2 - by1
  let denom := cross2d dxa dya dxb dyb
  if |denom| < SEG_EPS then false
  else
    let dxab := bx1 - ax1
    let dyab := by1 - ay1
    let t := cross2d dxab dyab dxb dyb / denom
    let u := cross2d dxab dyab dxa dya / denom
    decide (0 ≤ t ∧ t ≤ 1 ∧ 0 ≤ u ∧ u ≤ 1)

/-- Per-gate wrapper (checkpoint.py, Checkpoint.intersects_segment). -/
def Checkpoint.intersects_segment (cp : Checkpoint) (px py qx qy : ℚ) : Bool :=
  segments_intersect cp.x1 cp.y1 cp.x2 cp.y2 px py qx qy

/-- Track: raster mask over a W x H arena plus the ordered gate list
(simulation/track.py, class Track). road_mask iy ix = true means grass
(lethal); the mask is indexed row-major as in the numpy source. -/
structure Track where
  width : ℕ
  height : ℕ
  road_mask : ℕ → ℕ → Bool
  checkpoints : List Checkpoint

/-- Point classification (track.py, Track.is_grass): coordinates are
truncated toward zero by int(), the bounds check runs on the truncated
cell indices, in-bounds points return the raster cell. -/
def Track.is_grass (t : Track) (x y : ℚ) : Bool :=
  let ix := ratTrunc x
  let iy := ratTrunc y
  if ix < 0 ∨ (t.width : ℤ) ≤ ix ∨ iy < 0 ∨ (t.height : ℤ) ≤ iy then true
  else t.road_mask iy.toNat ix.toNat

/-- A 1 x 1 all-road track used to exhibit the truncation gap of is_grass. -/
def trackAllRoad1 : Track :=
  { width := 1, height := 1, road_mask := fun _ _ => false, checkpoints := [] }

/-- C2: the claim quantifies over every point outside the rectangle, but the
point (-1/2, 0) lies outside [0,1) x [0,1) and is classified as road on an
all-road 1 x 1 track, because int() truncates -1/2 to cell 0. -/
theorem C2_out_of_bounds_counterexample :
    ((-1 : ℚ)/2 < 0) ∧ trackAllRoad1.is_grass (-1/2) 0 = false := by
  refine ⟨by norm_num, ?_⟩
  have h1 : ratTrunc (-1/2 : ℚ) = 0 := by
    unfold ratTrunc
    rw [if_pos (by norm_num)]
    norm_num
  have h2 : ratTrunc (0 : ℚ) = 0 := by
    unfold ratTrunc
    rw [if_neg (by norm_num)]
    norm_num
  simp [Track.is_grass, h1, h2, trackAllRoad1]

/-- C2 amended: every coordinate pair outside the larger open rectangle
(-1, W) x (-1, H) classifies as lethal; points in the slivers with x or y
in (-1, 0) truncate to the border cells and are classified by them. -/
theorem C2_out_of_bounds_amended (t : Track) (x y : ℚ)
    (hw : 1 ≤ t.width) (hh : 1 ≤ t.height)
    (hout : x ≤ -1 ∨ (t.width : ℚ) ≤ x ∨ y ≤ -1 ∨ (t.height : ℚ) ≤ y) :
    t.is_grass x y = true := by
  have key : ∀ z : ℚ, ∀ n : ℕ, 1 ≤ n → (z ≤ -1 ∨ (n : ℚ) ≤ z) →
      ratTrunc z < 0 ∨ (n : ℤ) ≤ ratTrunc z := by
    intro z n hn hz
    rcases hz with hz | hz
    · left
      unfold ratTrunc
      rw [if_pos (by linarith)]
      have h1 : (1 : ℤ) ≤ ⌊-z⌋ := by
        rw [Int.le_floor]
        push_cast
        linarith
      omega
    · right
      have hz0 : (0 : ℚ) ≤ z := le_trans (by exact_mod_cast Nat.zero_le n) hz
      rw [ratTrunc_nonneg_eq_floor hz0, Int.le_floor]
      push_cast
      exact hz
  unfold Track.is_grass
  rcases hout with h | h | h | h
  · rcases key x t.width hw (Or.inl h) with h' | h' <;> simp [h']
  · rcases key x t.width hw (Or.inr h) with h' | h' <;> simp [h']
  · rcases key y t.height hh (Or.inl h) with h' | h' <;> simp [h']
  · rcases key y t.height hh (Or.inr h) with h' | h' <;> simp [h']

/-- C2 amended, witness instance: the point (5, 1/2) on the all-road
1 x 1 track is past the right edge and classifies as lethal. -/
theorem C2_out_of_bounds_amended_witness :
    trackAllRoad1.is_grass 5 (1/2) = true :=
  C2_out_of_bounds_amended trackAllRoad1 5 (1/2) (by norm_num [trackAllRoad1])
    (by norm_num [trackAllRoad1])
    (Or.inr (Or.inl (by norm_num [trackAllRoad1])))

set_option maxHeartbeats 1000000 in
/-- C8: the gate crossing test is symmetric in the two endpoints of the
motion segment: swapping them negates the denominator and replaces the
motion parameter u by 1 - u, leaving the intersection verdict unchanged. -/
theorem C8_gate_symmetry (cp : Checkpoint) (px py qx qy : ℚ) :
    cp.intersects_segment px py qx qy = cp.intersects_segment qx qy px py := by
  obtain ⟨ax1, ay1, ax2, ay2, idx⟩ := cp
  simp only [Checkpoint.intersects_segment, segments_intersect, cross2d]
  refine (if_congr ?_ rfl ?_).symm
  · rw [show (ax2 - ax1) * (py - qy) - (ay2 - ay1) * (px - qx)
        = -((ax2 - ax1) * (qy - py) - (ay2 - ay1) * (qx - px)) by ring, abs_neg]
  · rw [decide_eq_decide]
    by_cases hD0 : (ax2 - ax1) * (qy - py) - (ay2 - ay1) * (qx - px) = 0
    · rw [show (ax2 - ax1) * (py - qy) - (ay2 - ay1) * (px - qx)
          = -((ax2 - ax1) * (qy - py) - (ay2 - ay1) * (qx - px)) by ring, hD0]
      norm_num
    · rw [show (ax2 - ax1) * (py - qy) - (ay2 - ay1) * (px - qx)
          = -((ax2 - ax1) * (qy - py) - (ay2 - ay1) * (qx - px)) by ring]
      have hDn : -((ax2 - ax1) * (qy - py) - (ay2 - ay1) * (qx - px)) ≠ 0 :=
        neg_ne_zero.mpr hD0
      have ht : ((qx - ax1) * (py - qy) - (qy - ay1) * (px - qx))
            / -((ax2 - ax1) * (qy - py) - (ay2 - ay1) * (qx - px))
          = ((px - ax1) * (qy - py) - (py - ay1) * (qx - px))
            / ((ax2 - ax1) * (qy - py) - (ay2 - ay1) * (qx - px)) := by
        rw [div_eq_div_iff hDn hD0]
        ring
      have hu : ((qx - ax1) * (ay2 - ay1) - (qy - ay1) * (ax2 - ax1))
            / -((ax2 - ax1) * (qy - py) - (ay2 - ay1) * (qx - px))
          = 1 - ((px - ax1) * (ay2 - ay1) - (py - ay1) * (ax2 - ax1))
            / ((ax2 - ax1) * (qy - py) - (ay2 - ay1) * (qx - px)) := by
        rw [div_eq_iff hDn]
        field_simp
        ring
      rw [ht, hu]
      constructor
      · rintro ⟨h1, h2, h3, h4⟩
        exact ⟨h1, h2, by linarith, by linarith⟩
      · rintro ⟨h1, h2, h3, h4⟩
        exact ⟨h1, h2, by linarith, by linarith⟩

/-- One lockstep ray march (track.py, Track.raycast_batch, restricted to a
single ray): from step index s with a number of remaining steps, sample the
point at distance s * 2 along the ray; the first lethal or out-of-bounds
sample (the same truncation and bounds test as is_grass) resolves the ray
at the normalized distance, and a ray that never hits reports 1.0. -/
def rayMarch (t : Track) (x y ca sa max_length : ℚ) : ℕ → ℕ → ℚ
  | _, 0 => 1
  | s, r + 1 =>
    let dist : ℚ := s * 2
    if t.is_grass (x + ca * dist) (y + sa * dist) then dist / max_length
    else rayMarch t x y ca sa max_length (s + 1) r

/-- Per-agent, per-ray sensor query (track.py, Track.raycast_batch): ca and
sa are the ray direction cosine and sine, the step size is 2.0 and the step
count is int(max_length / 2.0). -/
def raycast_ray (t : Track) (x y ca sa max_length : ℚ) : ℚ :=
  rayMarch t x y ca sa max_length 1 (ratTrunc (max_length / 2)).toNat

/-- The sample points of the march do not depend on the configured range,
so a ray that hits within the shorter of two ranges resolves both marches
at the same absolute distance d, reported as d normalized by each range. -/
theorem rayMarch_shrink (t : Track) (x y ca sa L L' : ℚ) :
    ∀ (r' r s : ℕ), r' ≤ r → rayMarch t x y ca sa L' s r' < 1 →
      ∃ d : ℚ, 0 ≤ d ∧ rayMarch t x y ca sa L' s r' = d / L' ∧
        rayMarch t x y ca sa L s r = d / L := by
  intro r'
  induction r' with
  | zero =>
    intro r s _ hhit
    rw [rayMarch] at hhit
    exact absurd hhit (lt_irrefl 1)
  | succ n ih =>
    intro r s hr hhit
    obtain ⟨m, rfl⟩ : ∃ m, r = m + 1 := ⟨r - 1, by omega⟩
    rw [rayMarch] at hhit ⊢
    rw [rayMarch]
    by_cases hg : t.is_grass (x + ca * ((s : ℚ) * 2)) (y + sa * ((s : ℚ) * 2)) = true
    · refine ⟨(s : ℚ) * 2, by positivity, ?_, ?_⟩ <;> simp [hg]
    · rw [if_neg hg] at hhit ⊢
      rw [if_neg hg]
      exact ih m (s + 1) (by omega) hhit

/-- A 1 x 1 all-grass track: every ray sample is lethal or out of bounds. -/
def trackAllGrass1 : Track :=
  { width := 1, height := 1, road_mask := fun _ _ => true, checkpoints := [] }

/-- Evaluation helper for the truncated step count of a concrete range. -/
theorem ratTrunc_toNat_eval (q : ℚ) (n : ℕ) (h1 : ¬ q < 0) (h2 : ⌊q⌋ = (n : ℤ)) :
    (ratTrunc q).toNat = n := by
  unfold ratTrunc
  rw [if_neg h1, h2]
  exact Int.toNat_natCast n

/-- C7: the claim says shrinking maxRange never increases the reported
normalized distance, but the march resolves at the same absolute distance
and divides it by the range, so the smaller range reports the larger
normalized value: with a hit at absolute distance 2, range 4 reports 1/2
while range 8 reports 1/4. -/
theorem C7_raycast_monotonicity_counterexample :
    raycast_ray trackAllGrass1 0 0 1 0 4 = 1/2 ∧
    raycast_ray trackAllGrass1 0 0 1 0 8 = 1/4 ∧
    ((1 : ℚ)/2 < 1 ∧ (1 : ℚ)/4 < (1 : ℚ)/2) := by
  have htr : ∀ z : ℚ, 0 ≤ z → ratTrunc z = ⌊z⌋ := fun z hz =>
    ratTrunc_nonneg_eq_floor hz
  have hg : trackAllGrass1.is_grass (0 + 1 * ((1 : ℕ) * 2 : ℚ))
      (0 + 0 * ((1 : ℕ) * 2 : ℚ)) = true := by
    unfold Track.is_grass
    norm_num [htr 2 (by norm_num), htr 0 le_rfl, trackAllGrass1]
  refine ⟨?_, ?_, by norm_num, by norm_num⟩
  · unfold raycast_ray
    rw [ratTrunc_toNat_eval (4/2) 2 (by norm_num) (by norm_num)]
    rw [rayMarch, if_pos hg]
    norm_num
  · unfold raycast_ray
    rw [ratTrunc_toNat_eval (8/2) 4 (by norm_num) (by norm_num)]
    rw [rayMarch, if_pos hg]
    norm_num

/-- C7 amended: for a ray that hits within the smaller range, shrinking
maxRange leaves the absolute hit distance (normalized value times range)
unchanged and therefore never DECREASES the reported normalized distance. -/
theorem C7_raycast_monotonicity_amended (t : Track) (x y ca sa L L' : ℚ)
    (hL : 0 < L') (hLL : L' ≤ L)
    (hhit : raycast_ray t x y ca sa L' < 1) :
    raycast_ray t x y ca sa L' * L' = raycast_ray t x y ca sa L * L ∧
    raycast_ray t x y ca sa L ≤ raycast_ray t x y ca sa L' := by
  have hsteps : (ratTrunc (L' / 2)).toNat ≤ (ratTrunc (L / 2)).toNat :=
    Int.toNat_le_toNat (ratTrunc_mono (by linarith))
  obtain ⟨d, hd0, hL'eq, hLeq⟩ :=
    rayMarch_shrink t x y ca sa L L' (ratTrunc (L' / 2)).toNat
      (ratTrunc (L / 2)).toNat 1 hsteps hhit
  have hLpos : 0 < L := lt_of_lt_of_le hL hLL
  constructor
  · rw [raycast_ray, raycast_ray, hL'eq, hLeq]
    rw [div_mul_cancel₀ _ (ne_of_gt hL), div_mul_cancel₀ _ (ne_of_gt hLpos)]
  · rw [raycast_ray, raycast_ray, hL'eq, hLeq]
    exact div_le_div_of_nonneg_left hd0 hL hLL

/-- C7 amended, witness: the concrete hit of the counterexample geometry,
range 8 shrunk to range 4, satisfies both amended conclusions. -/
theorem C7_raycast_monotonicity_amended_witness :
    raycast_ray trackAllGrass1 0 0 1 0 4 * 4 =
      raycast_ray trackAllGrass1 0 0 1 0 8 * 8 ∧
    raycast_ray trackAllGrass1 0 0 1 0 8 ≤ raycast_ray trackAllGrass1 0 0 1 0 4 := by
  refine C7_raycast_monotonicity_amended trackAllGrass1 0 0 1 0 8 4
    (by norm_num) (by norm_num) ?_
  have hg : trackAllGrass1.is_grass (0 + 1 * ((1 : ℕ) * 2 : ℚ))
      (0 + 0 * ((1 : ℕ) * 2 : ℚ)) = true := by
    unfold Track.is_grass
    norm_num [ratTrunc_nonneg_eq_floor (by norm_num : (0:ℚ) ≤ 2),
      ratTrunc_nonneg_eq_floor (le_refl (0 : ℚ)), trackAllGrass1]
  rw [raycast_ray, ratTrunc_toNat_eval (4/2) 2 (by norm_num) (by norm_num),
    rayMarch, if_pos hg]
  norm_num

/-- Shared physics profile (car.py, class CarConfig), restricted to the
numeric fields consumed by the batch step; ray angles and image paths are
irrelevant to the embedded operations. -/
structure CarConfig where
  max_speed : ℚ
  acceleration : ℚ
  brake_force : ℚ
  rotation_speed : ℚ
  drift_enabled : Bool
  grip : ℚ
  ray_count : ℕ
  ray_length : ℚ
  max_ticks : ℕ
  stall_timeout : ℕ

/-- One agent row of the struct-of-arrays CarBatch (car.py, _init_arrays):
one field per numpy array; min_wall_distance starts at infinity, modelled
by WithTop. -/
structure Car where
  pos_x : ℚ
  pos_y : ℚ
  angle : ℚ
  velocity_angle : ℚ
  speed : ℚ
  prev_speed : ℚ
  alive : Bool
  fitness : ℚ
  checkpoint_progress : ℕ
  total_checkpoints : ℕ
  laps : ℕ
  time_alive : ℕ
  stall_timer : ℕ
  total_distance : ℚ
  max_speed_reached : ℚ
  speed_accumulator : ℚ
  drift_count : ℕ
  crashed : Bool
  timed_out : Bool
  wall_hits : ℕ
  min_wall_distance : WithTop ℚ
  wall_distance_accumulator : ℚ
  distance_to_next_cp : ℚ

/-- The whole batch: one list entry per agent. -/
abbrev CarBatch := List Car

/-- Movement scale constant (car.py, CarBatch.SPEED_SCALE). -/
def SPEED_SCALE : ℚ := 20

/-- Fixed timestep, 60 ticks per second (car.py, CarBatch.DT). -/
def DT : ℚ := 1 / 60

/-- Anti-tunneling substep bound in pixels (car.py, MAX_STEP_PX). -/
def MAX_STEP_PX : ℚ := 8

/-- One freshly reset agent (car.py, CarBatch.reset and _init_arrays). -/
def reset_car (sx sy sa : ℚ) : Car :=
  { pos_x := sx, pos_y := sy, angle := sa, velocity_angle := sa,
    speed := 0, prev_speed := 0, alive := true, fitness := 0,
    checkpoint_progress := 0, total_checkpoints := 0, laps := 0,
    time_alive := 0, stall_timer := 0, total_distance := 0,
    max_speed_reached := 0, speed_accumulator := 0, drift_count := 0,
    crashed := false, timed_out := false, wall_hits := 0,
    min_wall_distance := ⊤, wall_distance_accumulator := 0,
    distance_to_next_cp := 0 }

/-- Batch reset (car.py, CarBatch.reset). -/
def CarBatch.reset (count : ℕ) (sx sy sa : ℚ) : CarBatch :=
  List.replicate count (reset_car sx sy sa)

/-- Heading after the steering integration step of CarBatch.update; dead
agents are frozen by the alive mask. -/
def angle_after (steering : ℚ) (cfg : CarConfig) (c : Car) : ℚ :=
  c.angle + steering * cfg.rotation_speed * (if c.alive then 1 else 0) * DT

/-- Speed after the throttle integration and clip step of CarBatch.update:
positive throttle accelerates, negative throttle brakes (sign-preserving),
and np.clip(x, 0, max_speed) is min (max x 0) max_speed. -/
def speed_after (throttle : ℚ) (cfg : CarConfig) (c : Car) : ℚ :=
  let accel := if 0 < throttle then throttle * cfg.acceleration else 0
  let brake := if throttle < 0 then throttle * cfg.brake_force else 0
  min (max (c.speed + (accel + brake) * (if c.alive then 1 else 0) * DT) 0)
    cfg.max_speed

/-- Velocity direction after the drift step of CarBatch.update: with drift
the direction relaxes toward the (already steered) heading by grip,
without drift it is a copy of the heading. -/
def velocity_angle_after (steering : ℚ) (cfg : CarConfig) (c : Car) : ℚ :=
  if cfg.drift_enabled then
    c.velocity_angle + (angle_after steering cfg c - c.velocity_angle) * cfg.grip
  else angle_after steering cfg c

/-- Pixels moved this tick by one agent (car.py: speeds * SPEED_SCALE * DT,
computed from the post-integration speed). -/
def px_per_tick (throttle : ℚ) (cfg : CarConfig) (c : Car) : ℚ :=
  speed_after throttle cfg c * SPEED_SCALE * DT

/-- The x component of one substep displacement of one agent. -/
def step_dx (rcos : ℚ → ℚ) (steering throttle : ℚ) (cfg : CarConfig)
    (substeps : ℕ) (c : Car) : ℚ :=
  rcos (velocity_angle_after steering cfg c) * px_per_tick throttle cfg c
    / (substeps : ℚ)

/-- The y component of one substep displacement of one agent. -/
def step_dy (rsin : ℚ → ℚ) (steering throttle : ℚ) (cfg : CarConfig)
    (substeps : ℕ) (c : Car) : ℚ :=
  rsin (velocity_angle_after steering cfg c) * px_per_tick throttle cfg c
    / (substeps : ℚ)

/-- The substep loop of CarBatch.update restricted to one agent: each
iteration moves a live agent by one substep (the alive mask freezes dead
agents), then check_grass kills agents sitting on a lethal cell, leaving
them frozen at that cell. Returns (x, y, alive, crashed). -/
def substep_loop (t : Track) (sdx sdy : ℚ) :
    ℕ → ℚ → ℚ → Bool → Bool → ℚ × ℚ × Bool × Bool
  | 0, x, y, alive, crashed => (x, y, alive, crashed)
  | n + 1, x, y, alive, crashed =>
    let x1 := x + sdx * (if alive then 1 else 0)
    let y1 := y + sdy * (if alive then 1 else 0)
    let g := t.is_grass x1 y1
    substep_loop t sdx sdy n x1 y1 (alive && !g) (crashed || (g && alive))

/-- One gate iteration of car.py, CarBatch.check_checkpoints_sweep, for
one agent: an agent whose progress pointer equals the gate index k and
whose full-tick motion segment crosses the gate cp advances by one (mod
the gate count n), counts the gate, counts a lap when the new pointer
value wraps to 0, and resets the stall timer. -/
def sweep_step (n : ℕ) (oldx oldy : ℚ) (acc : Car) (k : ℕ) (cp : Checkpoint) : Car :=
  if cp.intersects_segment oldx oldy acc.pos_x acc.pos_y
      && (acc.checkpoint_progress == k) && acc.alive then
    { acc with
      checkpoint_progress := (acc.checkpoint_progress + 1) % n,
      total_checkpoints := acc.total_checkpoints + 1,
      laps := acc.laps + (if ((acc.checkpoint_progress + 1) % n) == 0 then 1 else 0),
      stall_timer := 0 }
  else acc

/-- The checkpoint sweep of car.py, CarBatch.check_checkpoints_sweep,
restricted to one agent: gates are scanned in enumeration order with the
full-tick segment from the pre-substep position to the current position. -/
def sweep_car (cps : List Checkpoint) (oldx oldy : ℚ) (c : Car) : Car :=
  cps.enum.foldl (fun acc p => sweep_step cps.length oldx oldy acc p.1 p.2) c

/-- One full tick of CarBatch.update for one agent: steering and throttle
integration, drift bookkeeping, the anti-tunneling substep loop with
per-substep grass kills (or plain movement without a track), the full-tick
checkpoint sweep, then the statistics bookkeeping. The shared substep
count is a parameter because the source computes it once per batch. -/
def update_car (rcos rsin rsqrt : ℚ → ℚ) (steering throttle : ℚ)
    (cfg : CarConfig) (otrack : Option Track) (substeps : ℕ) (c : Car) : Car :=
  let aliveF : ℚ := if c.alive then 1 else 0
  let prev := c.speed
  let angle1 := angle_after steering cfg c
  let speed1 := speed_after throttle cfg c
  let vel1 := velocity_angle_after steering cfg c
  let driftInc : ℕ :=
    if cfg.drift_enabled && decide (1/20 < |angle1 - c.velocity_angle|) && c.alive
    then 1 else 0
  let px := speed1 * SPEED_SCALE * DT
  let dirx := rcos vel1
  let diry := rsin vel1
  let moved : ℚ × ℚ × Bool × Bool :=
    match otrack with
    | some t =>
        substep_loop t (dirx * px / (substeps : ℚ)) (diry * px / (substeps : ℚ))
          substeps c.pos_x c.pos_y c.alive c.crashed
    | none =>
        (c.pos_x + dirx * px * aliveF, c.pos_y + diry * px * aliveF,
          c.alive, c.crashed)
  let c1 : Car := { c with
    pos_x := moved.1, pos_y := moved.2.1,
    alive := moved.2.2.1, crashed := moved.2.2.2,
    angle := angle1, velocity_angle := vel1, speed := speed1,
    prev_speed := prev, drift_count := c.drift_count + driftInc }
  let c2 : Car :=
    match otrack with
    | some t => sweep_car t.checkpoints c.pos_x c.pos_y c1
    | none => c1
  let dx := dirx * px * aliveF
  let dy := diry * px * aliveF
  { c2 with
    total_distance := c2.total_distance + rsqrt (dx * dx + dy * dy),
    max_speed_reached := max c2.max_speed_reached (speed1 * aliveF),
    speed_accumulator := c2.speed_accumulator + speed1 * aliveF,
    time_alive := c2.time_alive + (if c2.alive then 1 else 0),
    stall_timer := c2.stall_timer + (if c2.alive then 1 else 0) }

/-- The per-batch maximum displacement (car.py: np.max(px_per_tick *
alive_mask), folded as a maximum with 0, which also covers the
no-agent-alive branch of the source because dead rows contribute 0). -/
def batch_max_px (throttle : ℕ → ℚ) (cfg : CarConfig) (cars : List Car) : ℚ :=
  cars.enum.foldl
    (fun m p =>
      max m (px_per_tick (throttle p.1) cfg p.2 * (if p.2.alive then 1 else 0)))
    0

/-- The shared substep count of one tick (car.py: substeps = max(1,
int(np.ceil(max_px / MAX_STEP_PX)))). For a nonpositive argument the
ceiling is nonpositive and toNat with the outer max yields 1, exactly as
int(np.ceil(.)) with max(1, .) does. -/
def batch_substeps (throttle : ℕ → ℚ) (cfg : CarConfig) (cars : List Car) : ℕ :=
  max 1 (⌈batch_max_px throttle cfg cars / MAX_STEP_PX⌉.toNat)

/-- The per-index map of update_car over the batch list. -/
def update_cars (rcos rsin rsqrt : ℚ → ℚ) (steering throttle : ℕ → ℚ)
    (cfg : CarConfig) (otrack : Option Track) (substeps : ℕ) :
    ℕ → List Car → List Car
  | _, [] => []
  | i, c :: rest =>
    update_car rcos rsin rsqrt (steering i) (throttle i) cfg otrack substeps c ::
      update_cars rcos rsin rsqrt steering throttle cfg otrack substeps (i + 1) rest

/-- The vectorized physics update (car.py, CarBatch.update): the substep
count is computed once from the whole batch, then every agent is stepped
with it. Without a track no substeps are taken. -/
def CarBatch.update (rcos rsin rsqrt : ℚ → ℚ) (steering throttle : ℕ → ℚ)
    (cfg : CarConfig) (otrack : Option Track) (cars : CarBatch) : CarBatch :=
  let substeps :=
    match otrack with
    | some _ => batch_substeps throttle cfg cars
    | none => 1
  update_cars rcos rsin rsqrt steering throttle cfg otrack substeps 0 cars

/-- One agent of car.py, CarBatch.check_grass: kill agents on a lethal
cell; newly dead agents are marked crashed. -/
def check_grass_car (t : Track) (c : Car) : Car :=
  let g := t.is_grass c.pos_x c.pos_y
  { c with alive := c.alive && !g, crashed := c.crashed || (g && c.alive) }

/-- car.py, CarBatch.check_grass over the whole batch. -/
def CarBatch.check_grass (t : Track) (cars : CarBatch) : CarBatch :=
  cars.map (check_grass_car t)

/-- One agent of car.py, CarBatch.check_stall: kill agents whose stall
timer has reached the timeout; newly dead agents are marked timed out. -/
def check_stall_car (max_stall : ℕ) (c : Car) : Car :=
  let stalled := decide (max_stall ≤ c.stall_timer) && c.alive
  { c with alive := c.alive && !stalled, timed_out := c.timed_out || stalled }

/-- car.py, CarBatch.check_stall over the whole batch. -/
def CarBatch.check_stall (max_stall : ℕ) (cars : CarBatch) : CarBatch :=
  cars.map (check_stall_car max_stall)

/-- A sweep step only rewrites the progress pointer, the gate counter, the
lap counter and the stall timer of an agent. -/
theorem sweep_step_shape (n : ℕ) (oldx oldy : ℚ) (acc : Car) (k : ℕ) (cp : Checkpoint) :
    ∃ pr tc lp st, sweep_step n oldx oldy acc k cp =
      { acc with checkpoint_progress := pr, total_checkpoints := tc,
                 laps := lp, stall_timer := st } := by
  unfold sweep_step
  by_cases h : (cp.intersects_segment oldx oldy acc.pos_x acc.pos_y
      && (acc.checkpoint_progress == k) && acc.alive) = true
  · exact ⟨_, _, _, _, by rw [if_pos h]⟩
  · exact ⟨acc.checkpoint_progress, acc.total_checkpoints, acc.laps,
      acc.stall_timer, by rw [if_neg h]⟩

/-- The whole sweep only rewrites the progress pointer, the gate counter,
the lap counter and the stall timer of an agent. -/
theorem sweep_foldl_shape (n : ℕ) (oldx oldy : ℚ) :
    ∀ (l : List (ℕ × Checkpoint)) (acc : Car),
      ∃ pr tc lp st,
        l.foldl (fun acc p => sweep_step n oldx oldy acc p.1 p.2) acc =
        { acc with checkpoint_progress := pr, total_checkpoints := tc,
                   laps := lp, stall_timer := st } := by
  intro l
  induction l with
  | nil => exact fun acc => ⟨acc.checkpoint_progress, acc.total_checkpoints,
      acc.laps, acc.stall_timer, rfl⟩
  | cons p rest ih =>
    intro acc
    obtain ⟨pr1, tc1, lp1, st1, h1⟩ := sweep_step_shape n oldx oldy acc p.1 p.2
    obtain ⟨pr2, tc2, lp2, st2, h2⟩ := ih (sweep_step n oldx oldy acc p.1 p.2)
    refine ⟨pr2, tc2, lp2, st2, ?_⟩
    rw [List.foldl_cons]
    show List.foldl _ (sweep_step n oldx oldy acc p.1 p.2) rest = _
    rw [h2, h1]

/-- sweep_car leaves every field other than the progress pointer, gate
counter, lap counter and stall timer unchanged. -/
theorem sweep_car_shape (cps : List Checkpoint) (oldx oldy : ℚ) (c : Car) :
    ∃ pr tc lp st, sweep_car cps oldx oldy c =
      { c with checkpoint_progress := pr, total_checkpoints := tc,
               laps := lp, stall_timer := st } :=
  sweep_foldl_shape cps.length oldx oldy cps.enum c

/-- A dead agent is never advanced by a sweep step. -/
theorem sweep_step_dead (n : ℕ) (oldx oldy : ℚ) (acc : Car) (k : ℕ)
    (cp : Checkpoint) (h : acc.alive = false) :
    sweep_step n oldx oldy acc k cp = acc := by
  unfold sweep_step
  rw [if_neg]
  simp [h]

/-- A dead agent is left untouched by the whole sweep. -/
theorem sweep_car_dead (cps : List Checkpoint) (oldx oldy : ℚ) (c : Car)
    (h : c.alive = false) : sweep_car cps oldx oldy c = c := by
  unfold sweep_car
  generalize cps.enum = l
  induction l with
  | nil => rfl
  | cons p rest ih =>
    rw [List.foldl_cons]
    show List.foldl _ (sweep_step cps.length oldx oldy c p.1 p.2) rest = c
    rw [sweep_step_dead _ _ _ _ _ _ h]
    exact ih

/-- Invariant carried through the gate scan: after the gates with indices
below k have been processed, the agent has advanced through d consecutive
gates starting at its initial pointer, the pointer and lap counter reflect
exactly one wrap when the advance reached the gate count, and a wrap can
only have happened once every gate was scanned. -/
def SweepInv (n : ℕ) (c0 : Car) (k : ℕ) (acc : Car) : Prop :=
  acc.pos_x = c0.pos_x ∧ acc.pos_y = c0.pos_y ∧ acc.alive = c0.alive ∧
  ∃ d : ℕ,
    acc.total_checkpoints = c0.total_checkpoints + d ∧
    c0.checkpoint_progress + d ≤ n ∧
    acc.checkpoint_progress =
      (if c0.checkpoint_progress + d = n then 0 else c0.checkpoint_progress + d) ∧
    acc.laps = c0.laps + (if c0.checkpoint_progress + d = n then 1 else 0) ∧
    (c0.checkpoint_progress + d = n → n ≤ k) ∧
    acc.stall_timer = (if 0 < d then 0 else c0.stall_timer)

theorem sweep_step_inv (n : ℕ) (oldx oldy : ℚ) (c0 : Car)
    (hp : c0.checkpoint_progress < n) (k : ℕ) (cp : Checkpoint) (acc : Car)
    (hinv : SweepInv n c0 k acc) :
    SweepInv n c0 (k + 1) (sweep_step n oldx oldy acc k cp) := by
  obtain ⟨hpx, hpy, hal, d, htc, hdn, hpr, hlp, hwr, hst⟩ := hinv
  by_cases h : (cp.intersects_segment oldx oldy acc.pos_x acc.pos_y
      && (acc.checkpoint_progress == k) && acc.alive) = true
  · have hstep : sweep_step n oldx oldy acc k cp =
        { acc with
          checkpoint_progress := (acc.checkpoint_progress + 1) % n,
          total_checkpoints := acc.total_checkpoints + 1,
          laps := acc.laps +
            (if ((acc.checkpoint_progress + 1) % n) == 0 then 1 else 0),
          stall_timer := 0 } := by
      unfold sweep_step
      rw [if_pos h]
    have hk : acc.checkpoint_progress = k := by
      simp only [Bool.and_eq_true, beq_iff_eq] at h
      exact h.1.2
    have hnw : ¬ (c0.checkpoint_progress + d = n) := by
      intro hw
      rw [hpr, if_pos hw] at hk
      have := hwr hw
      omega
    rw [hpr, if_neg hnw] at hk
    rw [hstep]
    refine ⟨hpx, hpy, hal, d + 1, ?_, by omega, ?_, ?_, ?_, ?_⟩
    · show acc.total_checkpoints + 1 = _
      omega
    · show (acc.checkpoint_progress + 1) % n = _
      rw [hpr, if_neg hnw]
      by_cases hw : c0.checkpoint_progress + (d + 1) = n
      · rw [if_pos hw, show c0.checkpoint_progress + d + 1 = n by omega,
          Nat.mod_self]
      · rw [if_neg hw, Nat.mod_eq_of_lt (by omega)]
        omega
    · show acc.laps + (if ((acc.checkpoint_progress + 1) % n == 0) = true
          then 1 else 0) = _
      rw [hlp, if_neg hnw, hpr, if_neg hnw]
      by_cases hw : c0.checkpoint_progress + (d + 1) = n
      · rw [if_pos hw]
        have h1 : (c0.checkpoint_progress + d + 1) % n = 0 := by
          rw [show c0.checkpoint_progress + d + 1 = n by omega, Nat.mod_self]
        simp [h1]
      · rw [if_neg hw]
        have h1 : (c0.checkpoint_progress + d + 1) % n =
            c0.checkpoint_progress + d + 1 := Nat.mod_eq_of_lt (by omega)
        have h2 : c0.checkpoint_progress + d + 1 ≠ 0 := by omega
        simp [h1, h2]
    · intro hw
      omega
    · show (0 : ℕ) = _
      rw [if_pos (by omega)]
  · have hstep : sweep_step n oldx oldy acc k cp = acc := by
      unfold sweep_step
      rw [if_neg h]
    rw [hstep]
    exact ⟨hpx, hpy, hal, d, htc, hdn, hpr, hlp,
      fun hw => le_trans (hwr hw) (by omega), hst⟩

theorem sweep_foldl_inv (n : ℕ) (oldx oldy : ℚ) (c0 : Car)
    (hp : c0.checkpoint_progress < n) :
    ∀ (l : List Checkpoint) (k : ℕ) (acc : Car), SweepInv n c0 k acc →
      SweepInv n c0 (k + l.length)
        (List.foldl (fun acc p => sweep_step n oldx oldy acc p.1 p.2) acc
          (List.enumFrom k l)) := by
  intro l
  induction l with
  | nil => intro k acc h; simpa using h
  | cons cp rest ih =>
    intro k acc h
    have h1 := sweep_step_inv n oldx oldy c0 hp k cp acc h
    have h2 := ih (k + 1) (sweep_step n oldx oldy acc k cp) h1
    have hlen : k + (cp :: rest).length = (k + 1) + rest.length := by
      simp [List.length_cons]
      omega
    rw [hlen]
    show SweepInv n c0 (k + 1 + rest.length)
      (List.foldl _ (sweep_step n oldx oldy acc k cp) (List.enumFrom (k + 1) rest))
    exact h2

/-- Master description of one sweep call on one live-progress agent: the
pointer advances through d consecutive gates, total_checkpoints grows by
exactly d, the pointer moves to (start + d) mod n, and the lap counter
grows by one exactly when the advance wrapped (start + d = n). -/
theorem sweep_car_spec (cps : List Checkpoint) (oldx oldy : ℚ) (c : Car)
    (hp : c.checkpoint_progress < cps.length) :
    ∃ d : ℕ,
      c.checkpoint_progress + d ≤ cps.length ∧
      (sweep_car cps oldx oldy c).total_checkpoints = c.total_checkpoints + d ∧
      (sweep_car cps oldx oldy c).checkpoint_progress
        = (c.checkpoint_progress + d) % cps.length ∧
      (sweep_car cps oldx oldy c).laps
        = c.laps + (if c.checkpoint_progress + d = cps.length then 1 else 0) := by
  have hbase : SweepInv cps.length c 0 c := by
    refine ⟨rfl, rfl, rfl, 0, by omega, by omega, ?_, ?_,
      fun hw => absurd hw (by omega), by simp⟩
    · rw [if_neg (by omega)]
      omega
    · rw [if_neg (by omega)]
      omega
  have h := sweep_foldl_inv cps.length oldx oldy c hp cps 0 c hbase
  rw [show (0 : ℕ) + cps.length = cps.length by omega] at h
  obtain ⟨-, -, -, d, htc, hdn, hpr, hlp, -, -⟩ := h
  have hsw : sweep_car cps oldx oldy c =
      List.foldl (fun acc p => sweep_step cps.length oldx oldy acc p.1 p.2) c
        (List.enumFrom 0 cps) := rfl
  refine ⟨d, hdn, ?_, ?_, ?_⟩
  · rw [hsw]
    exact htc
  · rw [hsw, hpr]
    by_cases hw : c.checkpoint_progress + d = cps.length
    · rw [if_pos hw, hw, Nat.mod_self]
    · rw [if_neg hw, Nat.mod_eq_of_lt (by omega)]
  · rw [hsw, hlp]

/-- A vertical gate at x = 1 spanning y in [-1, 1]. -/
def gateA : Checkpoint := { x1 := 1, y1 := -1, x2 := 1, y2 := 1, index := 0 }

/-- A vertical gate at x = 2 spanning y in [-1, 1]. -/
def gateB : Checkpoint := { x1 := 2, y1 := -1, x2 := 2, y2 := 1, index := 1 }

/-- A vertical gate at x = 10 spanning y in [-1, 1]. -/
def gateC : Checkpoint := { x1 := 10, y1 := -1, x2 := 10, y2 := 1, index := 2 }

/-- An agent whose tick moved it from (0, 0) to (3, 0). -/
def carSweepStart : Car := reset_car 3 0 0

theorem gateA_crossed : gateA.intersects_segment 0 0 3 0 = true := by
  unfold Checkpoint.intersects_segment segments_intersect cross2d gateA
  rw [if_neg (by norm_num [SEG_EPS])]
  rw [decide_eq_true_eq]
  norm_num

theorem gateB_crossed : gateB.intersects_segment 0 0 3 0 = true := by
  unfold Checkpoint.intersects_segment segments_intersect cross2d gateB
  rw [if_neg (by norm_num [SEG_EPS])]
  rw [decide_eq_true_eq]
  norm_num

theorem gateC_missed : gateC.intersects_segment 0 0 3 0 = false := by
  unfold Checkpoint.intersects_segment segments_intersect cross2d gateC
  rw [if_neg (by norm_num [SEG_EPS])]
  rw [decide_eq_false_iff_not]
  intro h
  have h4 := h.2.2.2
  norm_num at h4

/-- C4: the claim says the progress pointer advances by at most one gate
per tick, but one sweep over gates at x = 1 and x = 2 crossed by the
single motion segment (0,0) to (3,0) advances the pointer from 0 to 2 and
counts two gates in the same call. -/
theorem C4_progress_monotonicity_counterexample :
    carSweepStart.checkpoint_progress = 0 ∧
    (sweep_car [gateA, gateB, gateC] 0 0 carSweepStart).checkpoint_progress = 2 ∧
    (sweep_car [gateA, gateB, gateC] 0 0 carSweepStart).total_checkpoints = 2 := by
  refine ⟨rfl, ?_, ?_⟩ <;>
    simp [sweep_car, sweep_step, List.enum, List.enumFrom,
      gateA_crossed, gateB_crossed, gateC_missed, carSweepStart, reset_car]

/-- C4 amended: in one sweep call the pointer advances through d
consecutive gates for some d between 0 and gateCount - startPointer (it
can exceed one when the tick segment crosses several consecutive gates),
the gate counter grows by exactly d, and the pointer moves to
(startPointer + d) mod gateCount. -/
theorem C4_progress_monotonicity_amended (cps : List Checkpoint) (oldx oldy : ℚ)
    (c : Car) (hp : c.checkpoint_progress < cps.length) :
    ∃ d : ℕ, d ≤ cps.length - c.checkpoint_progress ∧
      (sweep_car cps oldx oldy c).total_checkpoints = c.total_checkpoints + d ∧
      (sweep_car cps oldx oldy c).checkpoint_progress
        = (c.checkpoint_progress + d) % cps.length := by
  obtain ⟨d, h1, h2, h3, -⟩ := sweep_car_spec cps oldx oldy c hp
  exact ⟨d, by omega, h2, h3⟩

/-- C4 amended, witness: a single-gate sweep on a fresh agent. -/
theorem C4_progress_monotonicity_amended_witness :
    ∃ d : ℕ, d ≤ [gateA].length - carSweepStart.checkpoint_progress ∧
      (sweep_car [gateA] 0 0 carSweepStart).total_checkpoints
        = carSweepStart.total_checkpoints + d ∧
      (sweep_car [gateA] 0 0 carSweepStart).checkpoint_progress
        = (carSweepStart.checkpoint_progress + d) % [gateA].length :=
  C4_progress_monotonicity_amended [gateA] 0 0 carSweepStart
    (by simp [carSweepStart, reset_car])

/-- Inside one update_car tick with a track, the progress fields are those
of the checkpoint sweep applied to an intermediate agent record whose
progress fields are untouched since the start of the tick. -/
theorem update_car_progress_shape (rcos rsin rsqrt : ℚ → ℚ)
    (steering throttle : ℚ) (cfg : CarConfig) (t : Track) (substeps : ℕ)
    (c : Car) :
    ∃ c1 : Car,
      (update_car rcos rsin rsqrt steering throttle cfg (some t) substeps c).laps
        = (sweep_car t.checkpoints c.pos_x c.pos_y c1).laps ∧
      (update_car rcos rsin rsqrt steering throttle cfg (some t) substeps c).total_checkpoints
        = (sweep_car t.checkpoints c.pos_x c.pos_y c1).total_checkpoints ∧
      (update_car rcos rsin rsqrt steering throttle cfg (some t) substeps c).checkpoint_progress
        = (sweep_car t.checkpoints c.pos_x c.pos_y c1).checkpoint_progress ∧
      c1.checkpoint_progress = c.checkpoint_progress ∧
      c1.total_checkpoints = c.total_checkpoints ∧
      c1.laps = c.laps := by
  unfold update_car
  dsimp only
  exact ⟨_, rfl, rfl, rfl, rfl, rfl, rfl⟩

/-- C5: over one full tick the lap counter either stays or grows by one,
and it grows by one exactly when this tick crossed at least one gate and
left the progress pointer wrapped at 0, i.e. when a gate crossing advanced
the pointer from gateCount - 1 back to 0; no other event changes it. -/
theorem C5_lap_counting (rcos rsin rsqrt : ℚ → ℚ) (steering throttle : ℚ)
    (cfg : CarConfig) (t : Track) (substeps : ℕ) (c : Car)
    (hp : c.checkpoint_progress < t.checkpoints.length) :
    ((update_car rcos rsin rsqrt steering throttle cfg (some t) substeps c).laps
        = c.laps ∨
      (update_car rcos rsin rsqrt steering throttle cfg (some t) substeps c).laps
        = c.laps + 1) ∧
    ((update_car rcos rsin rsqrt steering throttle cfg (some t) substeps c).laps
        = c.laps + 1 ↔
      (c.total_checkpoints <
        (update_car rcos rsin rsqrt steering throttle cfg (some t) substeps c).total_checkpoints ∧
       (update_car rcos rsin rsqrt steering throttle cfg (some t) substeps c).checkpoint_progress
        = 0)) := by
  obtain ⟨c1, e4, e5, e6, e1, e2, e3⟩ :=
    update_car_progress_shape rcos rsin rsqrt steering throttle cfg t substeps c
  obtain ⟨d, hdn, htc, hpr, hlp⟩ :=
    sweep_car_spec t.checkpoints c.pos_x c.pos_y c1 (by rw [e1]; exact hp)
  rw [e4, e5, e6, htc, hpr, hlp, e1, e2, e3]
  rw [e1] at hdn
  constructor
  · by_cases hw : c.checkpoint_progress + d = t.checkpoints.length
    · rw [if_pos hw]
      right
      rfl
    · rw [if_neg hw]
      left
      rfl
  · constructor
    · intro h
      by_cases hw : c.checkpoint_progress + d = t.checkpoints.length
      · refine ⟨by omega, ?_⟩
        rw [hw, Nat.mod_self]
      · rw [if_neg hw] at h
        omega
    · rintro ⟨h1, h2⟩
      by_cases hw : c.checkpoint_progress + d = t.checkpoints.length
      · rw [if_pos hw]
      · rw [Nat.mod_eq_of_lt (by omega)] at h2
        omega

/-- A 8 x 1 all-road track whose single gate sits at x = 1. -/
def trackOneGate : Track :=
  { width := 8, height := 1, road_mask := fun _ _ => false,
    checkpoints := [gateA] }

/-- C5 witness: a concrete tick on the one-gate track. -/
theorem C5_lap_counting_witness :
    ((update_car (fun _ => 1) (fun _ => 0) (fun _ => 0) 0 0
        { max_speed := 10, acceleration := 1/2, brake_force := 4/5,
          rotation_speed := 4, drift_enabled := false, grip := 7/10,
          ray_count := 5, ray_length := 200, max_ticks := 2000,
          stall_timeout := 200 }
        (some trackOneGate) 1 (reset_car 0 0 0)).laps = (reset_car 0 0 0).laps ∨
      (update_car (fun _ => 1) (fun _ => 0) (fun _ => 0) 0 0
        { max_speed := 10, acceleration := 1/2, brake_force := 4/5,
          rotation_speed := 4, drift_enabled := false, grip := 7/10,
          ray_count := 5, ray_length := 200, max_ticks := 2000,
          stall_timeout := 200 }
        (some trackOneGate) 1 (reset_car 0 0 0)).laps = (reset_car 0 0 0).laps + 1) ∧
    ((update_car (fun _ => 1) (fun _ => 0) (fun _ => 0) 0 0
        { max_speed := 10, acceleration := 1/2, brake_force := 4/5,
          rotation_speed := 4, drift_enabled := false, grip := 7/10,
          ray_count := 5, ray_length := 200, max_ticks := 2000,
          stall_timeout := 200 }
        (some trackOneGate) 1 (reset_car 0 0 0)).laps = (reset_car 0 0 0).laps + 1 ↔
      ((reset_car 0 0 0).total_checkpoints <
        (update_car (fun _ => 1) (fun _ => 0) (fun _ => 0) 0 0
          { max_speed := 10, acceleration := 1/2, brake_force := 4/5,
            rotation_speed := 4, drift_enabled := false, grip := 7/10,
            ray_count := 5, ray_length := 200, max_ticks := 2000,
            stall_timeout := 200 }
          (some trackOneGate) 1 (reset_car 0 0 0)).total_checkpoints ∧
       (update_car (fun _ => 1) (fun _ => 0) (fun _ => 0) 0 0
          { max_speed := 10, acceleration := 1/2, brake_force := 4/5,
            rotation_speed := 4, drift_enabled := false, grip := 7/10,
            ray_count := 5, ray_length := 200, max_ticks := 2000,
            stall_timeout := 200 }
          (some trackOneGate) 1 (reset_car 0 0 0)).checkpoint_progress = 0)) :=
  C5_lap_counting (fun _ => 1) (fun _ => 0) (fun _ => 0) 0 0 _ trackOneGate 1
    (reset_car 0 0 0) (by simp [trackOneGate, reset_car])

/-- The default profile values of car.py, CarConfig.__init__. -/
def cfgDefault : CarConfig :=
  { max_speed := 10, acceleration := 1/2, brake_force := 4/5,
    rotation_speed := 4, drift_enabled := false, grip := 7/10,
    ray_count := 5, ray_length := 200, max_ticks := 2000,
    stall_timeout := 200 }

/-- Row access into the batch (out-of-range rows read as a fresh agent;
every property proved through agentAt also checks the index bound or is
index-independent). -/
def agentAt (cars : List Car) (i : ℕ) : Car := cars.getD i (reset_car 0 0 0)

/-- A dead agent is not moved and not reclassified by the substep loop. -/
theorem substep_loop_dead (t : Track) (sdx sdy : ℚ) :
    ∀ (n : ℕ) (x y : ℚ) (crashed : Bool),
      substep_loop t sdx sdy n x y false crashed = (x, y, false, crashed) := by
  intro n
  induction n with
  | zero => intro x y crashed; rfl
  | succ m ih =>
    intro x y crashed
    rw [substep_loop]
    simp only [Bool.false_eq_true, if_false, mul_zero, add_zero,
      Bool.false_and, Bool.and_false, Bool.or_false]
    exact ih x y crashed

/-- A dead agent already satisfies its speed clip. -/
theorem speed_after_dead (throttle : ℚ) (cfg : CarConfig) (c : Car)
    (hdead : c.alive = false) (hs0 : 0 ≤ c.speed) (hsm : c.speed ≤ cfg.max_speed) :
    speed_after throttle cfg c = c.speed := by
  unfold speed_after
  rw [hdead]
  simp only [Bool.false_eq_true, if_false, mul_zero, zero_mul, add_zero]
  rw [max_eq_left hs0, min_eq_left hsm]

/-- A dead agent keeps its heading. -/
theorem angle_after_dead (steering : ℚ) (cfg : CarConfig) (c : Car)
    (hdead : c.alive = false) : angle_after steering cfg c = c.angle := by
  unfold angle_after
  rw [hdead]
  simp

/-- C6 amended: a tick on a dead agent leaves every per-agent field
unchanged EXCEPT two: the previous-speed field is overwritten with the
(frozen) current speed, and the velocity-direction angle is recomputed
(copied from the frozen heading without drift, relaxed toward it by the
grip factor with drift). Position, heading, speed and the flags stay
frozen; the velocity-angle rewrite, however, moves the value again on
every subsequent tick while drift is enabled and the angle still differs
from the frozen heading, so the dead row is not in general a fixed
point. -/
theorem C6_dead_agent_frozen_amended (rcos rsin rsqrt : ℚ → ℚ)
    (steering throttle : ℚ) (cfg : CarConfig) (otrack : Option Track)
    (substeps : ℕ) (c : Car)
    (hdead : c.alive = false)
    (hs0 : 0 ≤ c.speed) (hsm : c.speed ≤ cfg.max_speed)
    (hmsr : 0 ≤ c.max_speed_reached)
    (hro : rsqrt 0 = 0) :
    update_car rcos rsin rsqrt steering throttle cfg otrack substeps c =
      { c with prev_speed := c.speed,
               velocity_angle := velocity_angle_after steering cfg c } := by
  have hspd := speed_after_dead throttle cfg c hdead hs0 hsm
  have hang := angle_after_dead steering cfg c hdead
  cases otrack with
  | none =>
    unfold update_car
    dsimp only
    rw [hdead]
    simp only [Bool.false_eq_true, if_false, mul_zero, zero_mul, add_zero,
      Bool.and_false, hang, hspd, hro, max_eq_left hmsr, Car.mk.injEq]
  | some t =>
    unfold update_car
    dsimp only
    rw [hdead, substep_loop_dead]
    rw [sweep_car_dead t.checkpoints c.pos_x c.pos_y _ rfl]
    simp only [Bool.false_eq_true, if_false, mul_zero, zero_mul, add_zero,
      Bool.and_false, hang, hspd, hro, max_eq_left hmsr, Car.mk.injEq]

/-- An agent that crashed on an earlier tick while decelerating: its
previous-speed field still holds the speed before its last live tick. -/
def deadCar : Car :=
  { reset_car 0 0 0 with alive := false, crashed := true, prev_speed := 5 }

/-- C6: the claim says every field of a dead agent is left unchanged by
subsequent updates, but CarBatch.update overwrites prev_speeds for all
rows; one update turns this dead agent's previous speed from 5 into its
frozen current speed 0. -/
theorem C6_dead_agent_frozen_counterexample :
    deadCar.alive = false ∧ deadCar.prev_speed = 5 ∧
    (agentAt (CarBatch.update (fun _ => 1) (fun _ => 0) (fun _ => 0)
        (fun _ => 0) (fun _ => 0) cfgDefault none [deadCar]) 0).prev_speed = 0 :=
  ⟨rfl, rfl, rfl⟩

/-- If no substep endpoint lands on a lethal cell, a live agent survives
the whole loop, keeps its crashed flag, and realizes the full nominal
displacement of the tick. -/
theorem substep_loop_survive (t : Track) (sdx sdy : ℚ) :
    ∀ (n : ℕ) (x y : ℚ) (crashed : Bool),
      (∀ k : ℕ, 1 ≤ k → k ≤ n →
        t.is_grass (x + k * sdx) (y + k * sdy) = false) →
      substep_loop t sdx sdy n x y true crashed
        = (x + n * sdx, y + n * sdy, true, crashed) := by
  intro n
  induction n with
  | zero =>
    intro x y crashed _
    simp [substep_loop]
  | succ m ih =>
    intro x y crashed hmiss
    rw [substep_loop]
    simp only [if_true, mul_one]
    have h1 : t.is_grass (x + sdx) (y + sdy) = false := by
      have := hmiss 1 le_rfl (by omega)
      simpa using this
    rw [h1]
    simp only [Bool.not_false, Bool.and_true, Bool.false_and, Bool.or_false]
    have h2 : ∀ k : ℕ, 1 ≤ k → k ≤ m →
        t.is_grass ((x + sdx) + k * sdx) ((y + sdy) + k * sdy) = false := by
      intro k hk1 hk2
      have := hmiss (k + 1) (by omega) (by omega)
      have ex : x + (↑(k + 1) : ℚ) * sdx = (x + sdx) + k * sdx := by
        push_cast
        ring
      have ey : y + (↑(k + 1) : ℚ) * sdy = (y + sdy) + k * sdy := by
        push_cast
        ring
      rw [ex, ey] at this
      exact this
    rw [ih (x + sdx) (y + sdy) crashed h2]
    have ex : x + sdx + ↑m * sdx = x + (↑(m + 1) : ℚ) * sdx := by
      push_cast
      ring
    have ey : y + sdy + ↑m * sdy = y + (↑(m + 1) : ℚ) * sdy := by
      push_cast
      ring
    rw [ex, ey]

/-- If some substep endpoint lands on a lethal cell, the loop kills the
agent and marks it crashed. -/
theorem substep_loop_kill (t : Track) (sdx sdy : ℚ) :
    ∀ (n : ℕ) (x y : ℚ) (crashed : Bool) (k : ℕ),
      1 ≤ k → k ≤ n → t.is_grass (x + k * sdx) (y + k * sdy) = true →
      (substep_loop t sdx sdy n x y true crashed).2.2.1 = false ∧
      (substep_loop t sdx sdy n x y true crashed).2.2.2 = true := by
  intro n
  induction n with
  | zero =>
    intro x y crashed k hk1 hk2 _
    omega
  | succ m ih =>
    intro x y crashed k hk1 hk2 hhit
    rw [substep_loop]
    simp only [if_true, mul_one]
    by_cases hg : t.is_grass (x + sdx) (y + sdy) = true
    · rw [hg]
      simp only [Bool.not_true, Bool.and_false, Bool.true_and, Bool.or_true]
      rw [substep_loop_dead]
      exact ⟨rfl, rfl⟩
    · rw [Bool.not_eq_true] at hg
      rw [hg]
      simp only [Bool.not_false, Bool.and_true, Bool.false_and, Bool.or_false]
      have hk2' : 2 ≤ k := by
        by_contra hlt
        have hk1' : k = 1 := by omega
        subst hk1'
        rw [show x + ((1 : ℕ) : ℚ) * sdx = x + sdx by push_cast; ring,
          show y + ((1 : ℕ) : ℚ) * sdy = y + sdy by push_cast; ring] at hhit
        rw [hhit] at hg
        exact Bool.noConfusion hg
      have hcast : ((k - 1 : ℕ) : ℚ) = (k : ℚ) - 1 := by
        rw [Nat.cast_sub (by omega : 1 ≤ k), Nat.cast_one]
      have hrx : x + (k : ℚ) * sdx = (x + sdx) + ((k - 1 : ℕ) : ℚ) * sdx := by
        rw [hcast]
        ring
      have hry : y + (k : ℚ) * sdy = (y + sdy) + ((k - 1 : ℕ) : ℚ) * sdy := by
        rw [hcast]
        ring
      rw [hrx, hry] at hhit
      exact ih (x + sdx) (y + sdy) crashed (k - 1) (by omega) (by omega) hhit

/-- The kinematic outcome of one tick with a track is exactly the outcome
of the substep loop run with the per-substep displacement. -/
theorem update_car_moved (rcos rsin rsqrt : ℚ → ℚ) (steering throttle : ℚ)
    (cfg : CarConfig) (t : Track) (substeps : ℕ) (c : Car) :
    (update_car rcos rsin rsqrt steering throttle cfg (some t) substeps c).alive
      = (substep_loop t (step_dx rcos steering throttle cfg substeps c)
          (step_dy rsin steering throttle cfg substeps c)
          substeps c.pos_x c.pos_y c.alive c.crashed).2.2.1 ∧
    (update_car rcos rsin rsqrt steering throttle cfg (some t) substeps c).crashed
      = (substep_loop t (step_dx rcos steering throttle cfg substeps c)
          (step_dy rsin steering throttle cfg substeps c)
          substeps c.pos_x c.pos_y c.alive c.crashed).2.2.2 ∧
    (update_car rcos rsin rsqrt steering throttle cfg (some t) substeps c).pos_x
      = (substep_loop t (step_dx rcos steering throttle cfg substeps c)
          (step_dy rsin steering throttle cfg substeps c)
          substeps c.pos_x c.pos_y c.alive c.crashed).1 ∧
    (update_car rcos rsin rsqrt steering throttle cfg (some t) substeps c).pos_y
      = (substep_loop t (step_dx rcos steering throttle cfg substeps c)
          (step_dy rsin steering throttle cfg substeps c)
          substeps c.pos_x c.pos_y c.alive c.crashed).2.1 := by
  unfold update_car step_dx step_dy px_per_tick
  dsimp only
  obtain ⟨pr, tc, lp, st, hsw⟩ :=
    sweep_car_shape t.checkpoints c.pos_x c.pos_y _
  rw [hsw]
  exact ⟨rfl, rfl, rfl, rfl⟩

/-- One tick kills and marks crashed any live agent for which some substep
endpoint of this tick lies on a lethal cell. -/
theorem update_car_kill (rcos rsin rsqrt : ℚ → ℚ) (steering throttle : ℚ)
    (cfg : CarConfig) (t : Track) (substeps : ℕ) (c : Car)
    (halive : c.alive = true)
    (hhit : ∃ k : ℕ, 1 ≤ k ∧ k ≤ substeps ∧
      t.is_grass (c.pos_x + k * step_dx rcos steering throttle cfg substeps c)
        (c.pos_y + k * step_dy rsin steering throttle cfg substeps c) = true) :
    (update_car rcos rsin rsqrt steering throttle cfg (some t) substeps c).alive
      = false ∧
    (update_car rcos rsin rsqrt steering throttle cfg (some t) substeps c).crashed
      = true := by
  obtain ⟨k, hk1, hk2, hh⟩ := hhit
  obtain ⟨ha, hc, -, -⟩ :=
    update_car_moved rcos rsin rsqrt steering throttle cfg t substeps c
  rw [ha, hc, halive]
  exact substep_loop_kill t _ _ substeps c.pos_x c.pos_y c.crashed k hk1 hk2 hh

/-- One tick on a live agent whose substep endpoints all stay on safe
cells keeps it alive with its crashed flag and moves it by the full
nominal displacement. -/
theorem update_car_survive (rcos rsin rsqrt : ℚ → ℚ) (steering throttle : ℚ)
    (cfg : CarConfig) (t : Track) (substeps : ℕ) (c : Car)
    (halive : c.alive = true)
    (hmiss : ∀ k : ℕ, 1 ≤ k → k ≤ substeps →
      t.is_grass (c.pos_x + k * step_dx rcos steering throttle cfg substeps c)
        (c.pos_y + k * step_dy rsin steering throttle cfg substeps c) = false) :
    (update_car rcos rsin rsqrt steering throttle cfg (some t) substeps c).alive
      = true ∧
    (update_car rcos rsin rsqrt steering throttle cfg (some t) substeps c).crashed
      = c.crashed ∧
    (update_car rcos rsin rsqrt steering throttle cfg (some t) substeps c).pos_x
      = c.pos_x + substeps * step_dx rcos steering throttle cfg substeps c ∧
    (update_car rcos rsin rsqrt steering throttle cfg (some t) substeps c).pos_y
      = c.pos_y + substeps * step_dy rsin steering throttle cfg substeps c := by
  obtain ⟨ha, hc, hx, hy⟩ :=
    update_car_moved rcos rsin rsqrt steering throttle cfg t substeps c
  rw [ha, hc, hx, hy, halive,
    substep_loop_survive t _ _ substeps c.pos_x c.pos_y c.crashed hmiss]
  exact ⟨rfl, rfl, rfl, rfl⟩

/-- Row i of the batch update is update_car on row i with the per-row
steering and throttle inputs. -/
theorem update_cars_getD (rcos rsin rsqrt : ℚ → ℚ) (steering throttle : ℕ → ℚ)
    (cfg : CarConfig) (otrack : Option Track) (substeps : ℕ) :
    ∀ (l : List Car) (j i : ℕ), i < l.length →
      agentAt (update_cars rcos rsin rsqrt steering throttle cfg otrack substeps j l) i
        = update_car rcos rsin rsqrt (steering (j + i)) (throttle (j + i)) cfg
            otrack substeps (agentAt l i) := by
  intro l
  induction l with
  | nil =>
    intro j i h
    simp at h
  | cons c rest ih =>
    intro j i h
    cases i with
    | zero =>
      rw [update_cars]
      simp [agentAt]
    | succ m =>
      rw [update_cars]
      have hm : m < rest.length := by
        simp at h
        omega
      have := ih (j + 1) m hm
      simp only [agentAt, List.getD_cons_succ] at this ⊢
      rw [this, show j + 1 + m = j + (m + 1) by omega]

/-- Evaluation helper: truncation of a nonnegative rational literal. -/
theorem ratTrunc_eval (q : ℚ) (n : ℕ) (h1 : ¬ q < 0) (h2 : ⌊q⌋ = (n : ℤ)) :
    ratTrunc q = (n : ℤ) := by
  unfold ratTrunc
  rw [if_neg h1, h2]

/-- Evaluation helper: classification of an in-bounds point reads the
raster cell at the truncated coordinates. -/
theorem is_grass_eval_in (t : Track) (x y : ℚ) (ix iy : ℕ)
    (hx : ratTrunc x = (ix : ℤ)) (hy : ratTrunc y = (iy : ℤ))
    (hxw : ix < t.width) (hyh : iy < t.height) :
    t.is_grass x y = t.road_mask iy ix := by
  unfold Track.is_grass
  rw [hx, hy, if_neg]
  · rw [Int.toNat_natCast, Int.toNat_natCast]
  · omega

/-- An 8 x 1 track whose only lethal cell is the column x in [2, 3): a
1-cell-wide lethal barrier. -/
def trackThin : Track :=
  { width := 8, height := 1, road_mask := fun _ ix => ix == 2,
    checkpoints := [] }

/-- An 8 x 1 track whose only lethal cell is the column x in [3, 4). -/
def trackWall : Track :=
  { width := 8, height := 1, road_mask := fun _ ix => ix == 3,
    checkpoints := [] }

/-- A live agent at (1/2, 1/2) heading along +x with speed 9, below the
default configured maximum of 10. -/
def fastCar : Car :=
  { reset_car (1/2) (1/2) 0 with speed := 9, prev_speed := 9 }

theorem fastCar_speed_after : speed_after 0 cfgDefault fastCar = 9 := by
  unfold speed_after
  norm_num [fastCar, reset_car, cfgDefault, DT]

theorem fastCar_substeps : batch_substeps (fun _ => 0) cfgDefault [fastCar] = 1 := by
  unfold batch_substeps batch_max_px px_per_tick
  simp only [List.enum, List.enumFrom, List.foldl_cons, List.foldl_nil]
  rw [fastCar_speed_after]
  norm_num [fastCar, reset_car, SPEED_SCALE, DT, MAX_STEP_PX]
  rw [show (⌈(3 : ℚ)/8⌉ : ℤ) = 1 by rw [Int.ceil_eq_iff]; norm_num]

theorem fastCar_step_dx : step_dx (fun _ => 1) 0 0 cfgDefault 1 fastCar = 3 := by
  unfold step_dx px_per_tick
  rw [fastCar_speed_after]
  norm_num [SPEED_SCALE, DT]

theorem fastCar_step_dy : step_dy (fun _ => 0) 0 0 cfgDefault 1 fastCar = 0 := by
  unfold step_dy px_per_tick
  norm_num

/-- The tick outcome of the thin-barrier scenario. -/
def carAfterTick : Car :=
  agentAt (CarBatch.update (fun _ => 1) (fun _ => 0) (fun _ => 0)
    (fun _ => 0) (fun _ => 0) cfgDefault (some trackThin) [fastCar]) 0

theorem carAfterTick_eq :
    carAfterTick = update_car (fun _ => 1) (fun _ => 0) (fun _ => 0) 0 0
      cfgDefault (some trackThin) 1 fastCar := by
  unfold carAfterTick CarBatch.update
  dsimp only
  rw [fastCar_substeps,
    update_cars_getD (fun _ => 1) (fun _ => 0) (fun _ => 0) (fun _ => 0)
      (fun _ => 0) cfgDefault (some trackThin) 1 [fastCar] 0 0 (by simp)]
  rfl

/-- C1: the claim says a full-tick path that crosses a lethal cell always
kills the agent, but grass is only sampled at substep endpoints: with the
default profile the tick displacement is 3 px in one substep, so the agent
jumps from x = 1/2 over the 1-cell barrier at x in [2,3) to x = 7/2 and
survives the tick although its straight-line path crossed the barrier. -/
theorem C1_no_tunneling_counterexample :
    fastCar.alive = true ∧ fastCar.speed ≤ cfgDefault.max_speed ∧
    (∃ τ : ℚ, 0 ≤ τ ∧ τ ≤ 1 ∧
      trackThin.is_grass
        (fastCar.pos_x + τ * (carAfterTick.pos_x - fastCar.pos_x))
        (fastCar.pos_y + τ * (carAfterTick.pos_y - fastCar.pos_y)) = true) ∧
    carAfterTick.alive = true ∧ carAfterTick.crashed = false := by
  have hmiss : ∀ k : ℕ, 1 ≤ k → k ≤ 1 →
      trackThin.is_grass
        (fastCar.pos_x + k * step_dx (fun _ => 1) 0 0 cfgDefault 1 fastCar)
        (fastCar.pos_y + k * step_dy (fun _ => 0) 0 0 cfgDefault 1 fastCar)
        = false := by
    intro k hk1 hk2
    have hk : k = 1 := by omega
    subst hk
    rw [fastCar_step_dx, fastCar_step_dy]
    rw [show fastCar.pos_x + ((1 : ℕ) : ℚ) * 3 = 7/2 by
      norm_num [fastCar, reset_car]]
    rw [show fastCar.pos_y + ((1 : ℕ) : ℚ) * 0 = 1/2 by
      norm_num [fastCar, reset_car]]
    rw [is_grass_eval_in trackThin (7/2) (1/2) 3 0
      (ratTrunc_eval _ _ (by norm_num) (by norm_num))
      (ratTrunc_eval _ _ (by norm_num) (by norm_num))
      (by norm_num [trackThin]) (by norm_num [trackThin])]
    rfl
  obtain ⟨ha, hc, hx, hy⟩ := update_car_survive (fun _ => 1) (fun _ => 0)
    (fun _ => 0) 0 0 cfgDefault trackThin 1 fastCar rfl hmiss
  rw [carAfterTick_eq]
  refine ⟨rfl, by norm_num [fastCar, reset_car, cfgDefault], ⟨1/2, by norm_num,
    by norm_num, ?_⟩, ha, hc⟩
  rw [hx, hy, fastCar_step_dx, fastCar_step_dy]
  rw [show fastCar.pos_x + 1/2 * (fastCar.pos_x + ((1 : ℕ) : ℚ) * 3 - fastCar.pos_x)
      = 2 by norm_num [fastCar, reset_car]]
  rw [show fastCar.pos_y + 1/2 * (fastCar.pos_y + ((1 : ℕ) : ℚ) * 0 - fastCar.pos_y)
      = 1/2 by norm_num [fastCar, reset_car]]
  rw [is_grass_eval_in trackThin 2 (1/2) 2 0
    (ratTrunc_eval _ _ (by norm_num) (by norm_num))
    (ratTrunc_eval _ _ (by norm_num) (by norm_num))
    (by norm_num [trackThin]) (by norm_num [trackThin])]
  rfl

/-- C1 amended: under CarBatch.update with a track, a live agent IS killed
in the tick (alive = false, crashed = true) whenever one of its substep
sample points, spaced at most MAX_STEP_PX apart along the straight-line
path, lands on a lethal cell; a path that crosses a lethal cell strictly
between consecutive sample points is not detected, so barriers thinner
than the substep length can be jumped. -/
theorem C1_no_tunneling_amended (rcos rsin rsqrt : ℚ → ℚ)
    (steering throttle : ℕ → ℚ) (cfg : CarConfig) (t : Track)
    (cars : CarBatch) (i : ℕ) (hi : i < cars.length)
    (halive : (agentAt cars i).alive = true)
    (hhit : ∃ k : ℕ, 1 ≤ k ∧ k ≤ batch_substeps throttle cfg cars ∧
      t.is_grass
        ((agentAt cars i).pos_x + k * step_dx rcos (steering i) (throttle i)
            cfg (batch_substeps throttle cfg cars) (agentAt cars i))
        ((agentAt cars i).pos_y + k * step_dy rsin (steering i) (throttle i)
            cfg (batch_substeps throttle cfg cars) (agentAt cars i)) = true) :
    (agentAt (CarBatch.update rcos rsin rsqrt steering throttle cfg (some t)
        cars) i).alive = false ∧
    (agentAt (CarBatch.update rcos rsin rsqrt steering throttle cfg (some t)
        cars) i).crashed = true := by
  have hb : CarBatch.update rcos rsin rsqrt steering throttle cfg (some t) cars
      = update_cars rcos rsin rsqrt steering throttle cfg (some t)
          (batch_substeps throttle cfg cars) 0 cars := rfl
  rw [hb, update_cars_getD rcos rsin rsqrt steering throttle cfg (some t)
    (batch_substeps throttle cfg cars) cars 0 i hi]
  simp only [Nat.zero_add]
  exact update_car_kill rcos rsin rsqrt (steering i) (throttle i) cfg t
    (batch_substeps throttle cfg cars) (agentAt cars i) halive hhit

/-- C1 amended, witness: the same fast agent against a barrier at x in
[3, 4), where the substep endpoint (7/2, 1/2) is lethal, dies crashed. -/
theorem C1_no_tunneling_amended_witness :
    (agentAt (CarBatch.update (fun _ => 1) (fun _ => 0) (fun _ => 0)
        (fun _ => 0) (fun _ => 0) cfgDefault (some trackWall) [fastCar]) 0).alive
      = false ∧
    (agentAt (CarBatch.update (fun _ => 1) (fun _ => 0) (fun _ => 0)
        (fun _ => 0) (fun _ => 0) cfgDefault (some trackWall) [fastCar]) 0).crashed
      = true := by
  refine C1_no_tunneling_amended (fun _ => 1) (fun _ => 0) (fun _ => 0)
    (fun _ => 0) (fun _ => 0) cfgDefault trackWall [fastCar] 0 (by simp) rfl
    ⟨1, le_rfl, ?_, ?_⟩
  · rw [fastCar_substeps]
  · rw [fastCar_substeps]
    show trackWall.is_grass
      (fastCar.pos_x + ((1 : ℕ) : ℚ) * step_dx (fun _ => 1) 0 0 cfgDefault 1 fastCar)
      (fastCar.pos_y + ((1 : ℕ) : ℚ) * step_dy (fun _ => 0) 0 0 cfgDefault 1 fastCar)
      = true
    rw [fastCar_step_dx, fastCar_step_dy]
    rw [show fastCar.pos_x + ((1 : ℕ) : ℚ) * 3 = 7/2 by
      norm_num [fastCar, reset_car]]
    rw [show fastCar.pos_y + ((1 : ℕ) : ℚ) * 0 = 1/2 by
      norm_num [fastCar, reset_car]]
    rw [is_grass_eval_in trackWall (7/2) (1/2) 3 0
      (ratTrunc_eval _ _ (by norm_num) (by norm_num))
      (ratTrunc_eval _ _ (by norm_num) (by norm_num))
      (by norm_num [trackWall]) (by norm_num [trackWall])]
    rfl

/-- Death is monotone through the substep loop: an agent alive afterwards
was alive before. -/
theorem substep_loop_alive_mono (t : Track) (sdx sdy : ℚ) :
    ∀ (n : ℕ) (x y : ℚ) (alive crashed : Bool),
      (substep_loop t sdx sdy n x y alive crashed).2.2.1 = true → alive = true := by
  intro n
  induction n with
  | zero => intro x y alive crashed h; exact h
  | succ m ih =>
    intro x y alive crashed h
    rw [substep_loop] at h
    have h2 := ih _ _ _ _ h
    simp only [Bool.and_eq_true] at h2
    exact h2.1

/-- The crashed flag is monotone through the substep loop. -/
theorem substep_loop_crashed_mono (t : Track) (sdx sdy : ℚ) :
    ∀ (n : ℕ) (x y : ℚ) (alive crashed : Bool),
      crashed = true → (substep_loop t sdx sdy n x y alive crashed).2.2.2 = true := by
  intro n
  induction n with
  | zero => intro x y alive crashed h; exact h
  | succ m ih =>
    intro x y alive crashed h
    rw [substep_loop]
    exact ih _ _ _ _ (by rw [h]; simp)

/-- If being crashed implies being dead on entry, the same holds on exit
of the substep loop. -/
theorem substep_loop_crash_kill (t : Track) (sdx sdy : ℚ) :
    ∀ (n : ℕ) (x y : ℚ) (alive crashed : Bool),
      (crashed = true → alive = false) →
      (substep_loop t sdx sdy n x y alive crashed).2.2.2 = true →
      (substep_loop t sdx sdy n x y alive crashed).2.2.1 = false := by
  intro n
  induction n with
  | zero => intro x y alive crashed hinv h; exact hinv h
  | succ m ih =>
    intro x y alive crashed hinv h
    rw [substep_loop] at h ⊢
    refine ih _ _ _ _ ?_ h
    cases hg : t.is_grass (x + sdx * (if alive = true then 1 else 0))
        (y + sdy * (if alive = true then 1 else 0)) <;>
      cases hal : alive <;> cases hcr : crashed <;> simp_all

/-- The timed-out flag is never touched by a physics tick. -/
theorem update_car_timed_out (rcos rsin rsqrt : ℚ → ℚ) (steering throttle : ℚ)
    (cfg : CarConfig) (otrack : Option Track) (substeps : ℕ) (c : Car) :
    (update_car rcos rsin rsqrt steering throttle cfg otrack substeps c).timed_out
      = c.timed_out := by
  cases otrack with
  | none => rfl
  | some t =>
    unfold update_car
    dsimp only
    obtain ⟨pr, tc, lp, st, hsw⟩ :=
      sweep_car_shape t.checkpoints c.pos_x c.pos_y _
    rw [hsw]

/-- Death is monotone through a physics tick. -/
theorem update_car_alive_mono (rcos rsin rsqrt : ℚ → ℚ) (steering throttle : ℚ)
    (cfg : CarConfig) (otrack : Option Track) (substeps : ℕ) (c : Car) :
    (update_car rcos rsin rsqrt steering throttle cfg otrack substeps c).alive
      = true → c.alive = true := by
  cases otrack with
  | none => intro h; exact h
  | some t =>
    intro h
    obtain ⟨ha, -, -, -⟩ :=
      update_car_moved rcos rsin rsqrt steering throttle cfg t substeps c
    rw [ha] at h
    exact substep_loop_alive_mono t _ _ substeps c.pos_x c.pos_y c.alive
      c.crashed h

/-- The crashed flag is monotone through a physics tick. -/
theorem update_car_crashed_mono (rcos rsin rsqrt : ℚ → ℚ) (steering throttle : ℚ)
    (cfg : CarConfig) (otrack : Option Track) (substeps : ℕ) (c : Car) :
    c.crashed = true →
    (update_car rcos rsin rsqrt steering throttle cfg otrack substeps c).crashed
      = true := by
  cases otrack with
  | none => intro h; exact h
  | some t =>
    intro h
    obtain ⟨-, hc, -, -⟩ :=
      update_car_moved rcos rsin rsqrt steering throttle cfg t substeps c
    rw [hc]
    exact substep_loop_crashed_mono t _ _ substeps c.pos_x c.pos_y c.alive
      c.crashed h

/-- A physics tick preserves the invariant that crashed or timed out
agents are dead. -/
theorem update_car_flag_inv (rcos rsin rsqrt : ℚ → ℚ) (steering throttle : ℚ)
    (cfg : CarConfig) (otrack : Option Track) (substeps : ℕ) (c : Car)
    (hinv : c.crashed = true ∨ c.timed_out = true → c.alive = false) :
    (update_car rcos rsin rsqrt steering throttle cfg otrack substeps c).crashed
        = true ∨
      (update_car rcos rsin rsqrt steering throttle cfg otrack substeps c).timed_out
        = true →
    (update_car rcos rsin rsqrt steering throttle cfg otrack substeps c).alive
      = false := by
  cases otrack with
  | none =>
    intro h
    exact hinv h
  | some t =>
    intro h
    obtain ⟨ha, hc, -, -⟩ :=
      update_car_moved rcos rsin rsqrt steering throttle cfg t substeps c
    rw [ha]
    rw [update_car_timed_out] at h
    rcases h with h | h
    · rw [hc] at h
      exact substep_loop_crash_kill t _ _ substeps c.pos_x c.pos_y c.alive
        c.crashed (fun hcr => hinv (Or.inl hcr)) h
    · have hdead : c.alive = false := hinv (Or.inr h)
      cases hal : (substep_loop t
          (step_dx rcos steering throttle cfg substeps c)
          (step_dy rsin steering throttle cfg substeps c)
          substeps c.pos_x c.pos_y c.alive c.crashed).2.2.1
      · rfl
      · have := substep_loop_alive_mono t _ _ substeps c.pos_x c.pos_y c.alive
          c.crashed hal
        rw [hdead] at this
        exact this.symm

/-- Flag behaviour of one grass check on one agent. -/
theorem check_grass_car_flags (t : Track) (c : Car) :
    ((check_grass_car t c).alive = true → c.alive = true) ∧
    (c.crashed = true → (check_grass_car t c).crashed = true) ∧
    ((check_grass_car t c).timed_out = c.timed_out) ∧
    ((c.crashed = true ∨ c.timed_out = true → c.alive = false) →
      ((check_grass_car t c).crashed = true ∨ (check_grass_car t c).timed_out = true →
        (check_grass_car t c).alive = false)) := by
  unfold check_grass_car
  cases hg : t.is_grass c.pos_x c.pos_y <;> cases hal : c.alive <;>
    cases hcr : c.crashed <;> simp_all

/-- Flag behaviour of one stall check on one agent. -/
theorem check_stall_car_flags (m : ℕ) (c : Car) :
    ((check_stall_car m c).alive = true → c.alive = true) ∧
    (c.crashed = true → (check_stall_car m c).crashed = true) ∧
    (c.timed_out = true → (check_stall_car m c).timed_out = true) ∧
    ((c.crashed = true ∨ c.timed_out = true → c.alive = false) →
      ((check_stall_car m c).crashed = true ∨ (check_stall_car m c).timed_out = true →
        (check_stall_car m c).alive = false)) := by
  unfold check_stall_car
  cases hst : decide (m ≤ c.stall_timer) <;> cases hal : c.alive <;>
    cases hto : c.timed_out <;> simp_all

/-- check_grass never touches the crashed record of the other agents and
the batch length is preserved by every map-style operation. -/
theorem update_cars_length (rcos rsin rsqrt : ℚ → ℚ) (steering throttle : ℕ → ℚ)
    (cfg : CarConfig) (otrack : Option Track) (substeps : ℕ) :
    ∀ (l : List Car) (j : ℕ),
      (update_cars rcos rsin rsqrt steering throttle cfg otrack substeps j l).length
        = l.length := by
  intro l
  induction l with
  | nil => intro j; rfl
  | cons c rest ih =>
    intro j
    rw [update_cars]
    simp [ih (j + 1)]

theorem agentAt_map (f : Car → Car) :
    ∀ (l : List Car) (i : ℕ), i < l.length →
      agentAt (l.map f) i = f (agentAt l i) := by
  intro l
  induction l with
  | nil => intro i h; simp at h
  | cons c rest ih =>
    intro i h
    cases i with
    | zero => rfl
    | succ m =>
      simp only [List.map_cons, agentAt, List.getD_cons_succ]
      have hm : m < rest.length := by simp at h; omega
      exact ih m hm

theorem agentAt_out (l : List Car) (i : ℕ) (h : l.length ≤ i) :
    agentAt l i = reset_car 0 0 0 := by
  unfold agentAt
  exact List.getD_eq_default l (reset_car 0 0 0) h

/-- The per-tick operations the claim ranges over (car.py: CarBatch.update
with any inputs, check_grass, check_stall). -/
inductive BatchOp where
  | update (rcos rsin rsqrt : ℚ → ℚ) (steering throttle : ℕ → ℚ)
      (cfg : CarConfig) (otrack : Option Track)
  | grass (t : Track)
  | stall (m : ℕ)

def BatchOp.apply : BatchOp → CarBatch → CarBatch
  | .update rc rs rq st th cfg ot, cars => CarBatch.update rc rs rq st th cfg ot cars
  | .grass t, cars => CarBatch.check_grass t cars
  | .stall m, cars => CarBatch.check_stall m cars

/-- Any interleaving of the three batch operations, applied in order. -/
def run_ops (ops : List BatchOp) (cars : CarBatch) : CarBatch :=
  ops.foldl (fun s o => o.apply s) cars

theorem batchOp_apply_length (o : BatchOp) (cars : CarBatch) :
    (o.apply cars).length = cars.length := by
  cases o with
  | update rc rs rq st th cfg ot =>
    show (CarBatch.update rc rs rq st th cfg ot cars).length = _
    unfold CarBatch.update
    exact update_cars_length rc rs rq st th cfg ot _ cars 0
  | grass t => simp [BatchOp.apply, CarBatch.check_grass]
  | stall m => simp [BatchOp.apply, CarBatch.check_stall]

/-- Per-agent flag behaviour of any single batch operation: liveness only
decreases, the crashed and timed-out flags only increase, and the
crashed-or-timed-out-implies-dead invariant is preserved. -/
theorem batchOp_apply_agent (o : BatchOp) (cars : CarBatch) (i : ℕ) :
    ((agentAt (o.apply cars) i).alive = true → (agentAt cars i).alive = true) ∧
    ((agentAt cars i).crashed = true → (agentAt (o.apply cars) i).crashed = true) ∧
    ((agentAt cars i).timed_out = true → (agentAt (o.apply cars) i).timed_out = true) ∧
    (((agentAt cars i).crashed = true ∨ (agentAt cars i).timed_out = true →
        (agentAt cars i).alive = false) →
      ((agentAt (o.apply cars) i).crashed = true ∨
          (agentAt (o.apply cars) i).timed_out = true →
        (agentAt (o.apply cars) i).alive = false)) := by
  by_cases hi : i < cars.length
  · cases o with
    | update rc rs rq st th cfg ot =>
      cases ot with
      | none =>
        have he : agentAt (BatchOp.apply (.update rc rs rq st th cfg none) cars) i
            = update_car rc rs rq (st i) (th i) cfg none 1 (agentAt cars i) := by
          show agentAt (CarBatch.update rc rs rq st th cfg none cars) i = _
          unfold CarBatch.update
          rw [update_cars_getD rc rs rq st th cfg none 1 cars 0 i hi]
          simp only [Nat.zero_add]
        rw [he]
        exact ⟨update_car_alive_mono rc rs rq (st i) (th i) cfg none 1 _,
          update_car_crashed_mono rc rs rq (st i) (th i) cfg none 1 _,
          fun h => by rw [update_car_timed_out]; exact h,
          fun hinv =>
            update_car_flag_inv rc rs rq (st i) (th i) cfg none 1
              (agentAt cars i) hinv⟩
      | some t =>
        have he : agentAt (BatchOp.apply (.update rc rs rq st th cfg (some t)) cars) i
            = update_car rc rs rq (st i) (th i) cfg (some t)
                (batch_substeps th cfg cars) (agentAt cars i) := by
          show agentAt (CarBatch.update rc rs rq st th cfg (some t) cars) i = _
          unfold CarBatch.update
          rw [update_cars_getD rc rs rq st th cfg (some t)
            (batch_substeps th cfg cars) cars 0 i hi]
          simp only [Nat.zero_add]
        rw [he]
        exact ⟨update_car_alive_mono rc rs rq (st i) (th i) cfg (some t) _ _,
          update_car_crashed_mono rc rs rq (st i) (th i) cfg (some t) _ _,
          fun h => by rw [update_car_timed_out]; exact h,
          fun hinv =>
            update_car_flag_inv rc rs rq (st i) (th i) cfg (some t)
              (batch_substeps th cfg cars) (agentAt cars i) hinv⟩
    | grass t =>
      have he : agentAt (BatchOp.apply (.grass t) cars) i
          = check_grass_car t (agentAt cars i) := by
        show agentAt (CarBatch.check_grass t cars) i = _
        exact agentAt_map (check_grass_car t) cars i hi
      rw [he]
      obtain ⟨h1, h2, h3, h4⟩ := check_grass_car_flags t (agentAt cars i)
      exact ⟨h1, h2, fun h => by rw [h3]; exact h, h4⟩
    | stall m =>
      have he : agentAt (BatchOp.apply (.stall m) cars) i
          = check_stall_car m (agentAt cars i) := by
        show agentAt (CarBatch.check_stall m cars) i = _
        exact agentAt_map (check_stall_car m) cars i hi
      rw [he]
      obtain ⟨h1, h2, h3, h4⟩ := check_stall_car_flags m (agentAt cars i)
      exact ⟨h1, h2, h3, h4⟩
  · have h1 : agentAt cars i = reset_car 0 0 0 := agentAt_out cars i (by omega)
    have h2 : agentAt (o.apply cars) i = reset_car 0 0 0 :=
      agentAt_out (o.apply cars) i (by rw [batchOp_apply_length]; omega)
    rw [h1, h2]
    refine ⟨fun h => h, fun h => h, fun h => h, fun _ h => ?_⟩
    rcases h with h | h <;> exact Bool.noConfusion h

/-- The crashed-or-timed-out-implies-dead invariant propagates through any
operation sequence from any state satisfying it. -/
theorem run_ops_inv_aux :
    ∀ (ops : List BatchOp) (cars : CarBatch),
      (∀ i, (agentAt cars i).crashed = true ∨ (agentAt cars i).timed_out = true →
        (agentAt cars i).alive = false) →
      ∀ i, (agentAt (run_ops ops cars) i).crashed = true ∨
          (agentAt (run_ops ops cars) i).timed_out = true →
        (agentAt (run_ops ops cars) i).alive = false := by
  intro ops
  induction ops with
  | nil => intro cars h i; exact h i
  | cons o rest ih =>
    intro cars h i
    have hstep : ∀ j, (agentAt (o.apply cars) j).crashed = true ∨
        (agentAt (o.apply cars) j).timed_out = true →
        (agentAt (o.apply cars) j).alive = false := by
      intro j
      exact (batchOp_apply_agent o cars j).2.2.2 (h j)
    exact ih (o.apply cars) hstep i

/-- Every agent of a freshly reset batch satisfies the invariant. -/
theorem reset_inv (count : ℕ) (sx sy sa : ℚ) (i : ℕ) :
    (agentAt (CarBatch.reset count sx sy sa) i).crashed = true ∨
      (agentAt (CarBatch.reset count sx sy sa) i).timed_out = true →
    (agentAt (CarBatch.reset count sx sy sa) i).alive = false := by
  intro h
  unfold CarBatch.reset at h ⊢
  by_cases hi : i < count
  · rw [show agentAt (List.replicate count (reset_car sx sy sa)) i
        = reset_car sx sy sa by
      unfold agentAt
      exact List.getD_eq_getElem?_getD _ _ _ ▸ by
        simp [List.getElem?_replicate, hi]] at h
    rcases h with h | h <;> exact Bool.noConfusion h
  · rw [agentAt_out _ i (by simp; omega)] at h
    rcases h with h | h <;> exact Bool.noConfusion h

/-- C10: after a batch reset, under every sequence of update, check_grass
and check_stall operations, per agent: a crashed or timed-out agent is
dead, liveness is monotonically non-increasing across one further
operation, and the crashed and timed-out flags are monotonically
non-decreasing across one further operation. -/
theorem C10_flag_invariants (count : ℕ) (sx sy sa : ℚ) (ops : List BatchOp)
    (o : BatchOp) (i : ℕ) :
    ((agentAt (run_ops ops (CarBatch.reset count sx sy sa)) i).crashed = true ∨
      (agentAt (run_ops ops (CarBatch.reset count sx sy sa)) i).timed_out = true →
      (agentAt (run_ops ops (CarBatch.reset count sx sy sa)) i).alive = false) ∧
    ((agentAt (o.apply (run_ops ops (CarBatch.reset count sx sy sa))) i).alive = true →
      (agentAt (run_ops ops (CarBatch.reset count sx sy sa)) i).alive = true) ∧
    ((agentAt (run_ops ops (CarBatch.reset count sx sy sa)) i).crashed = true →
      (agentAt (o.apply (run_ops ops (CarBatch.reset count sx sy sa))) i).crashed = true) ∧
    ((agentAt (run_ops ops (CarBatch.reset count sx sy sa)) i).timed_out = true →
      (agentAt (o.apply (run_ops ops (CarBatch.reset count sx sy sa))) i).timed_out = true) := by
  obtain ⟨h1, h2, h3, h4⟩ :=
    batchOp_apply_agent o (run_ops ops (CarBatch.reset count sx sy sa)) i
  exact ⟨run_ops_inv_aux ops (CarBatch.reset count sx sy sa)
    (fun j => reset_inv count sx sy sa j) i, h1, h2, h3⟩

/-- C10 witness: the empty operation sequence and one further grass check
on a singleton fresh batch. -/
theorem C10_flag_invariants_witness :
    ((agentAt (run_ops [] (CarBatch.reset 1 0 0 0)) 0).crashed = true ∨
      (agentAt (run_ops [] (CarBatch.reset 1 0 0 0)) 0).timed_out = true →
      (agentAt (run_ops [] (CarBatch.reset 1 0 0 0)) 0).alive = false) ∧
    ((agentAt ((BatchOp.grass trackAllGrass1).apply
        (run_ops [] (CarBatch.reset 1 0 0 0))) 0).alive = true →
      (agentAt (run_ops [] (CarBatch.reset 1 0 0 0)) 0).alive = true) ∧
    ((agentAt (run_ops [] (CarBatch.reset 1 0 0 0)) 0).crashed = true →
      (agentAt ((BatchOp.grass trackAllGrass1).apply
        (run_ops [] (CarBatch.reset 1 0 0 0))) 0).crashed = true) ∧
    ((agentAt (run_ops [] (CarBatch.reset 1 0 0 0)) 0).timed_out = true →
      (agentAt ((BatchOp.grass trackAllGrass1).apply
        (run_ops [] (CarBatch.reset 1 0 0 0))) 0).timed_out = true) :=
  C10_flag_invariants 1 0 0 0 [] (BatchOp.grass trackAllGrass1) 0

/-- C6 amended, witness: the dead agent of the counterexample is exactly
frozen except for the previous-speed and velocity-direction rewrites. -/
theorem C6_dead_agent_frozen_amended_witness :
    update_car (fun _ => 1) (fun _ => 0) (fun _ => 0) 0 0 cfgDefault none 1
        deadCar =
      { deadCar with prev_speed := deadCar.speed,
                     velocity_angle := velocity_angle_after 0 cfgDefault deadCar } :=
  C6_dead_agent_frozen_amended (fun _ => 1) (fun _ => 0) (fun _ => 0) 0 0
    cfgDefault none 1 deadCar rfl
    (by norm_num [deadCar, reset_car])
    (by norm_num [deadCar, reset_car, cfgDefault])
    (by norm_num [deadCar, reset_car])
    rfl

/-- Read-only per-agent statistics snapshot passed to the fitness function
(training/fitness_evaluator.py, class CarStats). -/
structure CarStats where
  checkpoints_reached : ℕ
  total_checkpoints : ℕ
  laps : ℕ
  time_alive : ℕ
  total_time : ℕ
  total_distance : ℚ
  average_speed : ℚ
  max_speed_reached : ℚ
  current_speed : ℚ
  distance_to_next_cp : ℚ
  drift_count : ℕ
  is_alive : Bool
  crashed : Bool
  timed_out : Bool
  wall_hits : ℕ
  min_wall_distance : ℚ
  avg_wall_distance : ℚ

/-- The user fitness function as seen by the evaluator: a Python call that
either returns a value convertible to float (some v) or raises or returns
something float() rejects (none). -/
abbrev FitnessFn := CarStats → Option ℚ

/-- training/fitness_evaluator.py, FitnessEvaluator.evaluate: the call and
float conversion run under try, any failure yields 0.0 for that agent. -/
def fitness_evaluate (f : FitnessFn) (car_stats : CarStats) : ℚ :=
  match f car_stats with
  | some v => v
  | none => 0

/-- C9: evaluating the accepted fitness function on a per-agent record
never propagates a failure: a raising or non-numeric evaluation yields
exactly 0.0 for that agent, and a numeric result is returned as is. -/
theorem C9_fitness_error_handling (f : FitnessFn) (car_stats : CarStats) :
    (f car_stats = none → fitness_evaluate f car_stats = 0) ∧
    (∀ v : ℚ, f car_stats = some v → fitness_evaluate f car_stats = v) := by
  constructor
  · intro h
    unfold fitness_evaluate
    rw [h]
  · intro v h
    unfold fitness_evaluate
    rw [h]

/-- The synthetic record used by the validation path of the evaluator
(training/fitness_evaluator.py, _validate_and_set). -/
def dummyStats : CarStats :=
  { checkpoints_reached := 0, total_checkpoints := 0, laps := 0,
    time_alive := 100, total_time := 2000, total_distance := 50,
    average_speed := 5, max_speed_reached := 8, current_speed := 3,
    distance_to_next_cp := 1/2, drift_count := 0, is_alive := false,
    crashed := true, timed_out := false, wall_hits := 5,
    min_wall_distance := 3, avg_wall_distance := 10 }

/-- C9 witness: a raising function evaluates to 0, a numeric one to its
value, on the synthetic validation record. -/
theorem C9_fitness_error_handling_witness :
    fitness_evaluate (fun _ => none) dummyStats = 0 ∧
    fitness_evaluate (fun _ => some 7) dummyStats = 7 :=
  ⟨(C9_fitness_error_handling (fun _ => none) dummyStats).1 rfl,
   (C9_fitness_error_handling (fun _ => some 7) dummyStats).2 7 rfl⟩

/-- Big-endian 4-byte encoding of struct.pack with format >I; the caller
side guarantees the value fits 32 bits (struct.pack raises otherwise). -/
def be32 (n : ℕ) : List ℕ :=
  [n / 2 ^ 24 % 256, n / 2 ^ 16 % 256, n / 2 ^ 8 % 256, n % 256]

/-- struct.unpack with format >I on the first four stream bytes. -/
def read_be32 (l : List ℕ) : ℕ :=
  ((l.getD 0 0 * 256 + l.getD 1 0) * 256 + l.getD 2 0) * 256 + l.getD 3 0

/-- The 8-byte PNG signature b x89 PNG r n x1a n. -/
def PNG_SIG : List ℕ := [137, 80, 78, 71, 13, 10, 26, 10]

def IHDR_T : List ℕ := [73, 72, 68, 82]

def IDAT_T : List ℕ := [73, 68, 65, 84]

def IEND_T : List ℕ := [73, 69, 78, 68]

/-- One RGBA pixel of the fixed palette (track.py, _encode_mask): grass is
green 4CAF50 and road is gray 808080, both with alpha 255. -/
def pixel_bytes (grass : Bool) : List ℕ :=
  if grass then [76, 175, 80, 255] else [128, 128, 128, 255]

def row_bytes (row : List Bool) : List ℕ := row.flatMap pixel_bytes

/-- The uncompressed scanline stream (track.py, _encode_mask): each row is
a filter byte 0 followed by its RGBA pixel bytes. -/
def raw_rows (mask : List (List Bool)) : List ℕ :=
  mask.flatMap (fun row => 0 :: row_bytes row)

/-- track.py, _encode_mask, make_chunk: length, type, payload, crc32. -/
def make_chunk (crc : List ℕ → ℕ) (ctype cdata : List ℕ) : List ℕ :=
  be32 cdata.length ++ ctype ++ cdata ++ be32 (crc (ctype ++ cdata) % 2 ^ 32)

/-- The 13-byte IHDR payload: width, height, bit depth 8, color type 6
(RGBA), compression, filter and interlace 0. -/
def ihdr_payload (w h : ℕ) : List ℕ := be32 w ++ be32 h ++ [8, 6, 0, 0, 0]

/-- track.py, _encode_mask: signature, IHDR, one IDAT holding the
zlib-compressed scanlines, IEND. compress and crc are the zlib library
routines, abstract here; the base64 wrapping of the source, being a
lossless external transport encoding, is dropped. -/
def encode_mask (compress : List ℕ → List ℕ) (crc : List ℕ → ℕ)
    (mask : List (List Bool)) (w h : ℕ) : List ℕ :=
  PNG_SIG ++ make_chunk crc IHDR_T (ihdr_payload w h)
    ++ make_chunk crc IDAT_T (compress (raw_rows mask))
    ++ make_chunk crc IEND_T []

/-- The chunk scan of track.py, _decode_mask: read 8-byte headers, record
the IHDR fields, collect the IDAT payloads, skip 4 CRC bytes, stop at IEND
or a short header. A truncated IHDR payload makes struct.unpack or the
byte indexing of the source raise, signalled by none. The fuel argument
only bounds the iteration count; the caller passes more fuel than the
stream can hold chunks (every iteration consumes at least 12 bytes). -/
def parse_chunks : ℕ → List ℕ → Option (ℕ × ℕ × ℕ × ℕ) → List ℕ →
    Option (Option (ℕ × ℕ × ℕ × ℕ) × List ℕ)
  | 0, _, hdr, idat => some (hdr, idat)
  | fuel + 1, rest, hdr, idat =>
    if rest.length < 8 then some (hdr, idat)
    else if (rest.drop 4).take 4 = IHDR_T then
      if ((rest.drop 8).take (read_be32 rest)).length < 10 then none
      else
        parse_chunks fuel ((rest.drop (8 + read_be32 rest)).drop 4)
          (some (read_be32 ((rest.drop 8).take (read_be32 rest)),
                 read_be32 (((rest.drop 8).take (read_be32 rest)).drop 4),
                 ((rest.drop 8).take (read_be32 rest)).getD 8 0,
                 ((rest.drop 8).take (read_be32 rest)).getD 9 0)) idat
    else if (rest.drop 4).take 4 = IDAT_T then
      parse_chunks fuel ((rest.drop (8 + read_be32 rest)).drop 4) hdr
        (idat ++ (rest.drop 8).take (read_be32 rest))
    else if (rest.drop 4).take 4 = IEND_T then some (hdr, idat)
    else parse_chunks fuel ((rest.drop (8 + read_be32 rest)).drop 4) hdr idat

/-- The PNG Paeth predictor (track.py, _decode_mask, filter 4). -/
def paeth_pred (a b c : ℤ) : ℤ :=
  let p := a + b - c
  if |p - a| ≤ |p - b| ∧ |p - a| ≤ |p - c| then a
  else if |p - b| ≤ |p - c| then b
  else c

/-- Sequential in-place Sub unfilter (filter 1): the first bpp bytes are
kept, each later byte adds the already-unfiltered byte bpp positions back
(done holds the processed prefix in reverse). -/
def unfilter_sub (bpp : ℕ) : List ℕ → List ℕ → List ℕ
  | done, [] => done.reverse
  | done, v :: rest =>
    unfilter_sub bpp
      ((if bpp ≤ done.length then (v + done.getD (bpp - 1) 0) % 256 else v) :: done)
      rest

/-- Up unfilter (filter 2): add the previous unfiltered row bytewise. -/
def unfilter_up (prev row : List ℕ) : List ℕ :=
  List.zipWith (fun v p => (v + p) % 256) row prev

/-- Average unfilter (filter 3): add the integer mean of the left
(already unfiltered) byte and the up byte. -/
def unfilter_avg (bpp : ℕ) (prev : List ℕ) : List ℕ → List ℕ → List ℕ
  | done, [] => done.reverse
  | done, v :: rest =>
    unfilter_avg bpp prev
      (((v + ((if bpp ≤ done.length then done.getD (bpp - 1) 0 else 0)
          + prev.getD done.length 0) / 2) % 256) :: done)
      rest

/-- Paeth unfilter (filter 4). -/
def unfilter_paeth (bpp : ℕ) (prev : List ℕ) : List ℕ → List ℕ → List ℕ
  | done, [] => done.reverse
  | done, v :: rest =>
    unfilter_paeth bpp prev
      ((((v : ℤ) + paeth_pred
          (if bpp ≤ done.length then (done.getD (bpp - 1) 0 : ℤ) else 0)
          (prev.getD done.length 0 : ℤ)
          (if bpp ≤ done.length then (prev.getD (done.length - bpp) 0 : ℤ) else 0)).toNat
        % 256) :: done)
      rest

/-- Filter dispatch of track.py, _decode_mask: filter byte 0 passes the
row through; an unknown filter byte matches no branch of the source and
also leaves the row unchanged. -/
def unfilter_row (ftype bpp : ℕ) (prev row : List ℕ) : List ℕ :=
  if ftype = 0 then row
  else if ftype = 1 then unfilter_sub bpp [] row
  else if ftype = 2 then unfilter_up prev row
  else if ftype = 3 then unfilter_avg bpp prev [] row
  else if ftype = 4 then unfilter_paeth bpp prev [] row
  else row

/-- Scanline reconstruction: rows of stride bytes, the first byte the
filter type, unfiltered against the previous reconstructed row (initially
zeros as in the source). -/
def decode_rows (bpp stride : ℕ) : List ℕ → List ℕ → ℕ → List (List ℕ)
  | _, _, 0 => []
  | raw, prev, n + 1 =>
    unfilter_row (raw.getD 0 0) bpp prev ((raw.drop 1).take (stride - 1)) ::
      decode_rows bpp stride (raw.drop stride)
        (unfilter_row (raw.getD 0 0) bpp prev ((raw.drop 1).take (stride - 1))) n

/-- Pixel classification of track.py: a pixel is grass iff its green
channel exceeds its red channel by more than 20. -/
def classify_row (bpp imgw : ℕ) (bytes : List ℕ) : List Bool :=
  (List.range imgw).map
    (fun x => decide (bytes.getD (x * bpp) 0 + 20 < bytes.getD (x * bpp + 1) 0))

/-- Size adaptation of track.py, _decode_mask: when the image size differs
from the requested size, the overlap is copied into an all-grass mask. -/
def resize_mask (m : List (List Bool)) (imgw imgh w h : ℕ) : List (List Bool) :=
  if imgw = w ∧ imgh = h then m
  else
    (List.range h).map (fun y =>
      (List.range w).map (fun x =>
        if y < imgh ∧ x < imgw then (m.getD y []).getD x true else true))

/-- The fail-safe result: an all-grass mask of the requested size. -/
def all_grass (w h : ℕ) : List (List Bool) :=
  List.replicate h (List.replicate w true)

/-- Raw-RGBA fallback for non-PNG payloads (track.py, _decode_raw_rgba). -/
def decode_raw_rgba (img : List ℕ) (w h : ℕ) : List (List Bool) :=
  if img.length < w * h * 4 then all_grass w h
  else
    (List.range h).map (fun y =>
      (List.range w).map (fun x =>
        decide (img.getD ((y * w + x) * 4) 0 + 20
          < img.getD ((y * w + x) * 4 + 1) 0)))

/-- track.py, _decode_mask: verify the signature (else fall back to raw
RGBA), scan the chunks, decompress the IDAT stream with the abstract zlib
inverse, reconstruct and classify the scanlines, and resize. Exception
paths of the source degrade to the all-grass mask: a missing IHDR, a
truncated IHDR payload, or a scanline stream too short for the advertised
image (where the numpy reshape of the source raises). -/
def decode_mask (decompress : List ℕ → List ℕ) (img : List ℕ) (w h : ℕ) :
    List (List Bool) :=
  if img.take 8 ≠ PNG_SIG then decode_raw_rgba img w h
  else
    match parse_chunks (img.length + 1) (img.drop 8) none [] with
    | none => all_grass w h
    | some (none, _) => all_grass w h
    | some (some (iw, ih, _depth, ctype), idat) =>
      let raw := decompress idat
      let bpp := if ctype = 2 then 3 else 4
      let stride := 1 + iw * bpp
      if raw.length < ih * stride then all_grass w h
      else
        resize_mask
          ((decode_rows bpp stride raw (List.replicate (iw * bpp) 0) ih).map
            (classify_row bpp iw))
          iw ih w h

theorem read_be32_be32 (n : ℕ) (hn : n < 2 ^ 32) (t : List ℕ) :
    read_be32 (be32 n ++ t) = n := by
  simp only [be32, List.cons_append, List.nil_append, read_be32,
    List.getD_cons_zero, List.getD_cons_succ]
  omega

/-- The facts one parse iteration needs about a stream that starts with a
well-formed chunk: it is not short, its advertised length, type and
payload read back, and dropping the chunk and its CRC reaches the tail. -/
theorem chunk_stream_facts (ln c : ℕ) (t0 t1 t2 t3 : ℕ) (data tail : List ℕ)
    (hln : data.length = ln) (hlt : ln < 2 ^ 32) :
    ¬ (be32 ln ++ ([t0, t1, t2, t3] ++ (data ++ (be32 c ++ tail)))).length < 8 ∧
    read_be32 (be32 ln ++ ([t0, t1, t2, t3] ++ (data ++ (be32 c ++ tail)))) = ln ∧
    ((be32 ln ++ ([t0, t1, t2, t3] ++ (data ++ (be32 c ++ tail)))).drop 4).take 4
      = [t0, t1, t2, t3] ∧
    ((be32 ln ++ ([t0, t1, t2, t3] ++ (data ++ (be32 c ++ tail)))).drop 8).take ln
      = data ∧
    ((be32 ln ++ ([t0, t1, t2, t3] ++ (data ++ (be32 c ++ tail)))).drop (8 + ln)).drop 4
      = tail := by
  have hdrop8 : (be32 ln ++ ([t0, t1, t2, t3] ++ (data ++ (be32 c ++ tail)))).drop 8
      = data ++ (be32 c ++ tail) := by
    simp [be32, List.cons_append]
  refine ⟨?_, read_be32_be32 ln hlt _, ?_, ?_, ?_⟩
  · simp [be32]
  · simp [be32, List.cons_append]
  · rw [hdrop8]
    exact List.take_left' hln
  · rw [← List.drop_drop, hdrop8, List.drop_left' hln]
    simp [be32, List.cons_append]

theorem ihdr_payload_length (w h : ℕ) : (ihdr_payload w h).length = 13 := by
  simp [ihdr_payload, be32]

theorem read_ihdr_w (w h : ℕ) (hw : w < 2 ^ 32) :
    read_be32 (ihdr_payload w h) = w :=
  read_be32_be32 w hw _

theorem read_ihdr_h (w h : ℕ) (hh : h < 2 ^ 32) :
    read_be32 ((ihdr_payload w h).drop 4) = h := by
  unfold ihdr_payload
  rw [List.append_assoc,
    List.drop_left' (show (be32 w).length = 4 by simp [be32])]
  exact read_be32_be32 h hh _

theorem ihdr_depth (w h : ℕ) : (ihdr_payload w h).getD 8 0 = 8 := by
  simp [ihdr_payload, be32, List.cons_append]

theorem ihdr_ctype (w h : ℕ) : (ihdr_payload w h).getD 9 0 = 6 := by
  simp [ihdr_payload, be32, List.cons_append]

/-- A chunk followed by more stream, reshaped into the right-associated
form the chunk scan reads. -/
theorem make_chunk_stream (crc : List ℕ → ℕ) (t0 t1 t2 t3 : ℕ)
    (data tail : List ℕ) :
    make_chunk crc [t0, t1, t2, t3] data ++ tail
      = be32 data.length ++ ([t0, t1, t2, t3] ++ (data
          ++ (be32 (crc ([t0, t1, t2, t3] ++ data) % 2 ^ 32) ++ tail))) := by
  unfold make_chunk
  simp [List.append_assoc]

/-- Scanning the chunk stream produced by encode_mask yields exactly the
IHDR fields and the compressed scanline payload. -/
theorem parse_encoded (compress : List ℕ → List ℕ) (crc : List ℕ → ℕ)
    (mask : List (List Bool)) (w h : ℕ) (fuel : ℕ)
    (hw : w < 2 ^ 32) (hh : h < 2 ^ 32)
    (hclen : (compress (raw_rows mask)).length < 2 ^ 32) :
    parse_chunks (fuel + 3) ((encode_mask compress crc mask w h).drop 8) none []
      = some (some (w, h, 8, 6), compress (raw_rows mask)) := by
  have hstream : (encode_mask compress crc mask w h).drop 8
      = make_chunk crc IHDR_T (ihdr_payload w h)
          ++ (make_chunk crc IDAT_T (compress (raw_rows mask))
            ++ make_chunk crc IEND_T []) := by
    unfold encode_mask
    simp only [List.append_assoc]
    rw [List.drop_left' (show PNG_SIG.length = 8 by simp [PNG_SIG])]
  rw [hstream]
  simp only [IHDR_T, IDAT_T, IEND_T]
  rw [make_chunk_stream crc 73 72 68 82 (ihdr_payload w h) _]
  obtain ⟨hA1, hA2, hA3, hA4, hA5⟩ :=
    chunk_stream_facts (ihdr_payload w h).length
      (crc ([73, 72, 68, 82] ++ ihdr_payload w h) % 2 ^ 32)
      73 72 68 82 (ihdr_payload w h)
      (make_chunk crc [73, 68, 65, 84] (compress (raw_rows mask))
        ++ make_chunk crc [73, 69, 78, 68] [])
      rfl (by rw [ihdr_payload_length]; norm_num)
  rw [parse_chunks, if_neg hA1, hA3,
    if_pos (show [73, 72, 68, 82] = IHDR_T from rfl),
    hA2, hA4, hA5]
  rw [if_neg (by rw [ihdr_payload_length]; norm_num)]
  rw [read_ihdr_w w h hw, read_ihdr_h w h hh, ihdr_depth, ihdr_ctype]
  rw [make_chunk_stream crc 73 68 65 84 (compress (raw_rows mask)) _]
  obtain ⟨hB1, hB2, hB3, hB4, hB5⟩ :=
    chunk_stream_facts (compress (raw_rows mask)).length
      (crc ([73, 68, 65, 84] ++ compress (raw_rows mask)) % 2 ^ 32)
      73 68 65 84 (compress (raw_rows mask))
      (make_chunk crc [73, 69, 78, 68] [])
      rfl hclen
  rw [parse_chunks, if_neg hB1, hB3,
    if_neg (show ¬ [73, 68, 65, 84] = IHDR_T by decide),
    if_pos (show [73, 68, 65, 84] = IDAT_T from rfl),
    hB2, hB4, hB5, List.nil_append]
  rw [← List.append_nil (make_chunk crc [73, 69, 78, 68] []),
    make_chunk_stream crc 73 69 78 68 [] []]
  obtain ⟨hC1, -, hC3, -, -⟩ :=
    chunk_stream_facts ([] : List ℕ).length
      (crc ([73, 69, 78, 68] ++ []) % 2 ^ 32)
      73 69 78 68 [] [] rfl (by norm_num)
  rw [parse_chunks, if_neg hC1, hC3,
    if_neg (show ¬ [73, 69, 78, 68] = IHDR_T by decide),
    if_neg (show ¬ [73, 69, 78, 68] = IDAT_T by decide),
    if_pos (show [73, 69, 78, 68] = IEND_T from rfl)]

theorem row_bytes_length (r : List Bool) : (row_bytes r).length = r.length * 4 := by
  induction r with
  | nil => rfl
  | cons b t ih =>
    have hb : row_bytes (b :: t) = pixel_bytes b ++ row_bytes t := by
      simp [row_bytes]
    rw [hb, List.length_append, ih]
    cases b <;> simp [pixel_bytes] <;> ring

theorem raw_rows_length (w : ℕ) (mask : List (List Bool))
    (hrow : ∀ row ∈ mask, row.length = w) :
    (raw_rows mask).length = mask.length * (1 + w * 4) := by
  induction mask with
  | nil => simp [raw_rows]
  | cons r t ih =>
    have hr : raw_rows (r :: t) = 0 :: (row_bytes r ++ raw_rows t) := by
      simp [raw_rows]
    rw [hr]
    simp only [List.length_cons, List.length_append, row_bytes_length,
      hrow r (List.mem_cons_self r t),
      ih (fun row hm => hrow row (List.mem_cons_of_mem r hm))]
    ring

/-- Filter-0 scanlines reconstruct to exactly the pixel rows, whatever the
previous-row buffer holds. -/
theorem decode_rows_raw (w : ℕ) (mask : List (List Bool)) :
    ∀ prev : List ℕ, (∀ row ∈ mask, row.length = w) →
      decode_rows 4 (1 + w * 4) (raw_rows mask) prev mask.length
        = mask.map row_bytes := by
  induction mask with
  | nil => intro prev _; rfl
  | cons r t ih =>
    intro prev hrow
    have hlen : (row_bytes r).length = w * 4 := by
      rw [row_bytes_length, hrow r (List.mem_cons_self r t)]
    have hraw : raw_rows (r :: t) = 0 :: (row_bytes r ++ raw_rows t) := by
      simp [raw_rows]
    have hdrop : (0 :: (row_bytes r ++ raw_rows t)).drop (1 + w * 4)
        = raw_rows t := by
      rw [show (1 + w * 4) = w * 4 + 1 from by omega, List.drop_succ_cons,
        List.drop_left' hlen]
    have htake : (((0 : ℕ) :: (row_bytes r ++ raw_rows t)).drop 1).take
        ((1 + w * 4) - 1) = row_bytes r := by
      rw [show ((0 : ℕ) :: (row_bytes r ++ raw_rows t)).drop 1
          = row_bytes r ++ raw_rows t from rfl,
        show (1 + w * 4) - 1 = w * 4 from by omega, List.take_left' hlen]
    have hunf : ∀ X : List ℕ, unfilter_row 0 4 prev X = X := by
      intro X; simp [unfilter_row]
    simp only [List.length_cons, List.map_cons]
    rw [hraw, decode_rows, List.getD_cons_zero, htake, hdrop, hunf]
    rw [ih (row_bytes r) (fun row hm => hrow row (List.mem_cons_of_mem r hm))]

/-- Classifying the RGBA bytes of a row by the green-over-red test recovers
the row: grass pixels satisfy 76 + 20 < 175 and road pixels fail
128 + 20 < 128. -/
theorem classify_row_bytes (r : List Bool) :
    classify_row 4 r.length (row_bytes r) = r := by
  induction r with
  | nil => rfl
  | cons b t ih =>
    have hb : row_bytes (b :: t) = pixel_bytes b ++ row_bytes t := by
      simp [row_bytes]
    have hs : ∀ (l : List ℕ) (n : ℕ),
        (pixel_bytes b ++ l).getD (4 + n) 0 = l.getD n 0 := by
      intro l n
      rw [List.getD_eq_getElem?_getD,
        List.getElem?_append_right (by cases b <;> simp [pixel_bytes]),
        show 4 + n - (pixel_bytes b).length = n from by
          cases b <;> simp [pixel_bytes],
        ← List.getD_eq_getElem?_getD]
    show classify_row 4 (t.length + 1) (row_bytes (b :: t)) = b :: t
    unfold classify_row
    rw [List.range_succ_eq_map, List.map_cons, List.map_map]
    congr 1
    · cases b <;> simp [hb, pixel_bytes]
    · have hcongr : ∀ x ∈ List.range t.length,
          decide ((row_bytes (b :: t)).getD (Nat.succ x * 4) 0 + 20
            < (row_bytes (b :: t)).getD (Nat.succ x * 4 + 1) 0)
          = decide ((row_bytes t).getD (x * 4) 0 + 20
            < (row_bytes t).getD (x * 4 + 1) 0) := by
        intro x _
        rw [hb, show Nat.succ x * 4 = 4 + x * 4 from by rw [Nat.succ_mul]; omega,
          show 4 + x * 4 + 1 = 4 + (x * 4 + 1) from by omega,
          hs (row_bytes t) (x * 4), hs (row_bytes t) (x * 4 + 1)]
      calc (List.range t.length).map
            ((fun x => decide ((row_bytes (b :: t)).getD (x * 4) 0 + 20
              < (row_bytes (b :: t)).getD (x * 4 + 1) 0)) ∘ Nat.succ)
          = (List.range t.length).map
            (fun x => decide ((row_bytes t).getD (x * 4) 0 + 20
              < (row_bytes t).getD (x * 4 + 1) 0)) :=
            List.map_congr_left hcongr
        _ = t := ih

theorem encode_mask_length (compress : List ℕ → List ℕ) (crc : List ℕ → ℕ)
    (mask : List (List Bool)) (w h : ℕ) :
    (encode_mask compress crc mask w h).length
      = 57 + (compress (raw_rows mask)).length := by
  simp [encode_mask, make_chunk, ihdr_payload, be32, PNG_SIG, IHDR_T,
    IDAT_T, IEND_T]
  omega

/-- C3: decoding an encoded mask reproduces the mask exactly, for any
mask whose rows all have the stated width, provided the external zlib
pair is a left inverse on the scanline stream and the sizes fit the
32-bit fields struct.pack writes. -/
theorem C3_roundtrip (compress decompress : List ℕ → List ℕ)
    (crc : List ℕ → ℕ) (mask : List (List Bool)) (w h : ℕ)
    (hlen : mask.length = h)
    (hrow : ∀ row ∈ mask, row.length = w)
    (hw : w < 2 ^ 32) (hh : h < 2 ^ 32)
    (hclen : (compress (raw_rows mask)).length < 2 ^ 32)
    (hinv : decompress (compress (raw_rows mask)) = raw_rows mask) :
    decode_mask decompress (encode_mask compress crc mask w h) w h = mask := by
  have hsig : (encode_mask compress crc mask w h).take 8 = PNG_SIG := by
    unfold encode_mask
    simp only [List.append_assoc]
    exact List.take_left' (by simp [PNG_SIG])
  have h57 := encode_mask_length compress crc mask w h
  have hfuel : (encode_mask compress crc mask w h).length + 1
      = ((encode_mask compress crc mask w h).length - 2) + 3 := by omega
  unfold decode_mask
  rw [if_neg (by rw [hsig]; exact fun hne => hne rfl)]
  rw [hfuel, parse_encoded compress crc mask w h _ hw hh hclen]
  have hraw : (decompress (compress (raw_rows mask))).length
      = h * (1 + w * 4) := by
    rw [hinv, raw_rows_length w mask hrow, hlen]
  show (if (decompress (compress (raw_rows mask))).length
        < h * (1 + w * (if (6 : ℕ) = 2 then 3 else 4)) then all_grass w h
      else resize_mask
        ((decode_rows (if (6 : ℕ) = 2 then 3 else 4)
            (1 + w * (if (6 : ℕ) = 2 then 3 else 4))
            (decompress (compress (raw_rows mask)))
            (List.replicate (w * (if (6 : ℕ) = 2 then 3 else 4)) 0) h).map
          (classify_row (if (6 : ℕ) = 2 then 3 else 4) w))
        w h w h) = mask
  rw [if_neg (show ¬ (6 : ℕ) = 2 by decide)]
  rw [if_neg (by rw [hraw]; omega)]
  rw [hinv, ← hlen,
    decode_rows_raw w mask (List.replicate (w * 4) 0) hrow,
    List.map_map]
  rw [resize_mask, if_pos ⟨rfl, by rw [hlen]⟩]
  have hrowid : ∀ r ∈ mask, (classify_row 4 w ∘ row_bytes) r = r := by
    intro r hr
    show classify_row 4 w (row_bytes r) = r
    rw [← hrow r hr]
    exact classify_row_bytes r
  rw [List.map_congr_left hrowid, List.map_id']

theorem C3_roundtrip_witness :
    [[true, false], [false, true]].length = 2 ∧
    decode_mask id (encode_mask id (fun _ => 0) [[true, false], [false, true]] 2 2) 2 2
      = [[true, false], [false, true]] :=
  ⟨rfl, C3_roundtrip id id (fun _ => 0) [[true, false], [false, true]] 2 2
    rfl (by decide) (by decide) (by decide) (by decide) rfl⟩

end CarRacing
